import Mathlib

/-!
Verification of the buru media-archive core against its specification.

The definitions below are a shallow embedding of the Rust sources:
`src/storage.rs` (pixel hashes, the content-addressed file store),
`src/database.rs` (the relational catalog), `src/app.rs` (the
orchestrator), `src/query/image.rs` and `src/dialect.rs` (query lowering,
SQLite dialect), and `src/parser.rs` (the query-string parser).

Machine integers are modelled as `Nat`/`Int` with explicit `2^64`
reductions where the source wraps; strings indexed by the source are
modelled as `List Char` (all relevant inputs are ASCII, where bytes and
characters coincide); fallible operations return `Except`/`Option`.
-/

namespace Buru

/-! ### Pixel hashes (`src/storage.rs`, `PixelHash([u8; 8])`) -/

/-- The 8-byte pixel hash `PixelHash([u8; 8])`, bytes in big-endian order. -/
structure PixelHash where
  bytes : List Nat
deriving DecidableEq, Repr

/-- Well-formedness of the representation: exactly eight bytes, each a `u8`. -/
def PixelHash.WF (h : PixelHash) : Prop :=
  h.bytes.length = 8 ∧ ∀ b ∈ h.bytes, b < 256

instance (h : PixelHash) : Decidable h.WF := by
  unfold PixelHash.WF; infer_instance

/-- Models `From<PixelHash> for u64`: `u64::from_be_bytes(value.0)`. -/
def PixelHash.toU64 (h : PixelHash) : Nat :=
  h.bytes.foldl (fun acc b => acc * 256 + b) 0

/-- Models `From<u64> for PixelHash`: `PixelHash(value.to_be_bytes())`. -/
def PixelHash.ofU64 (v : Nat) : PixelHash :=
  ⟨[v / 2 ^ 56 % 256, v / 2 ^ 48 % 256, v / 2 ^ 40 % 256, v / 2 ^ 32 % 256,
    v / 2 ^ 24 % 256, v / 2 ^ 16 % 256, v / 2 ^ 8 % 256, v % 256]⟩

/-- Reinterpret a 64-bit pattern (a `Nat` below `2^64`) as the `i64` it denotes
    (Rust `v as i64`). -/
def u64ToI64 (v : Nat) : Int :=
  if v < 2 ^ 63 then (v : Int) else (v : Int) - 2 ^ 64

/-- The 64-bit two's-complement pattern of an `i64` value (Rust `i as u64`). -/
def i64ToU64 (i : Int) : Nat :=
  (i % 2 ^ 64).toNat

/-- Bitwise XOR on `i64`, performed on the two's-complement bit patterns. -/
def i64Xor (a b : Int) : Int :=
  u64ToI64 (i64ToU64 a ^^^ i64ToU64 b)

/-- `PixelHash::to_signed`: interpret the hash as `u64`, cast to `i64`, and XOR
    with `0x8000_0000_0000_0000` (which, as an overflowing `i64` literal in the
    source, denotes `-2^63`). -/
def PixelHash.toSigned (h : PixelHash) : Int :=
  i64Xor (u64ToI64 h.toU64) (-(2 ^ 63))

/-- `PixelHash::from_signed`: cast the `i64` to `u64`, XOR with
    `0x8000_0000_0000_0000`, and take the big-endian bytes. -/
def PixelHash.fromSigned (v : Int) : PixelHash :=
  PixelHash.ofU64 (i64ToU64 v ^^^ 2 ^ 63)

/-! ### Hexadecimal rendering and parsing of pixel hashes -/

/-- The lowercase hex digit of a value below 16, as produced by `{:02x}`. -/
def hexDigitChar (n : Nat) : Char :=
  if n < 10 then Char.ofNat (48 + n) else Char.ofNat (87 + n)

/-- The two-digit lowercase rendering of one byte, `format!("{:02x}", b)`. -/
def hexBytePair (b : Nat) : List Char :=
  [hexDigitChar (b / 16), hexDigitChar (b % 16)]

/-- Canonical textual form of a hash (`Display for PixelHash`, and
    `From<PixelHash> for String`, which produce the same characters): the
    concatenation of the two-digit lowercase hex of each byte. -/
def PixelHash.toHexString (h : PixelHash) : List Char :=
  h.bytes.foldl (fun acc b => acc ++ hexBytePair b) []

/-- The 22 characters accepted as hexadecimal digits by
    `u8::from_str_radix(_, 16)`. -/
def hexDigits : List Char :=
  ['0', '1', '2', '3', '4'] ++ ['5', '6', '7', '8', '9'] ++
    ['a', 'b', 'c', 'd', 'e', 'f'] ++ ['A', 'B', 'C', 'D', 'E', 'F']

/-- The numeric value of a hexadecimal digit character (`char::to_digit(16)`);
    0 on non-digits (never reached on valid digits). -/
def hexCharVal (c : Char) : Nat :=
  if 48 ≤ c.toNat ∧ c.toNat ≤ 57 then c.toNat - 48
  else if 97 ≤ c.toNat ∧ c.toNat ≤ 102 then c.toNat - 87
  else if 65 ≤ c.toNat ∧ c.toNat ≤ 70 then c.toNat - 55
  else 0

/-- Models `u8::from_str_radix(chunk, 16)`: an optional leading `'+'` sign,
    then at least one hexadecimal digit (either letter case), and the value
    must fit in a `u8`. -/
def fromStrRadix16 (cs : List Char) : Option Nat :=
  let ds := if cs.head? = some '+' then cs.tail else cs
  if ds.isEmpty then none
  else if ds.all (fun c => decide (c ∈ hexDigits)) then
    let v := ds.foldl (fun a c => a * 16 + hexCharVal c) 0
    if v < 256 then some v else none
  else none

/-- `PixelHashParseError` of `src/storage.rs`. -/
inductive PixelHashParseError where
  | invalidLength
  | invalidHex
deriving DecidableEq, Repr

instance {ε α : Type} [DecidableEq ε] [DecidableEq α] :
    DecidableEq (Except ε α) := fun a b =>
  match a, b with
  | .ok x, .ok y =>
    if h : x = y then .isTrue (by rw [h]) else .isFalse (by simp [h])
  | .error x, .error y =>
    if h : x = y then .isTrue (by rw [h]) else .isFalse (by simp [h])
  | .ok _, .error _ => .isFalse (by simp)
  | .error _, .ok _ => .isFalse (by simp)

/-- Models `TryFrom<String> for PixelHash`: the length must be 16, and the
    eight two-character chunks are each parsed with `from_str_radix(_, 16)`.
    The source's fixed loop over chunk indices 0..8 is unrolled; the source
    measures length and slices chunks in bytes, which coincides with
    characters on the ASCII inputs considered here. -/
def PixelHash.tryFrom (cs : List Char) : Except PixelHashParseError PixelHash :=
  match cs with
  | [a0, b0, a1, b1, a2, b2, a3, b3, a4, b4, a5, b5, a6, b6, a7, b7] =>
    match fromStrRadix16 [a0, b0], fromStrRadix16 [a1, b1], fromStrRadix16 [a2, b2],
          fromStrRadix16 [a3, b3], fromStrRadix16 [a4, b4], fromStrRadix16 [a5, b5],
          fromStrRadix16 [a6, b6], fromStrRadix16 [a7, b7] with
    | some v0, some v1, some v2, some v3, some v4, some v5, some v6, some v7 =>
      .ok ⟨[v0, v1, v2, v3, v4, v5, v6, v7]⟩
    | _, _, _, _, _, _, _, _ => .error .invalidHex
  | _ => .error .invalidLength

/-! ### Arithmetic lemmas for the signed/unsigned bijection -/

/-- Splitting a list known to have eight elements. -/
theorem exists_eight_of_length {α : Type} (bs : List α) (h : bs.length = 8) :
    ∃ b0 b1 b2 b3 b4 b5 b6 b7, bs = [b0, b1, b2, b3, b4, b5, b6, b7] := by
  rcases bs with _ | ⟨b0, bs⟩; · simp at h
  rcases bs with _ | ⟨b1, bs⟩; · simp at h
  rcases bs with _ | ⟨b2, bs⟩; · simp at h
  rcases bs with _ | ⟨b3, bs⟩; · simp at h
  rcases bs with _ | ⟨b4, bs⟩; · simp at h
  rcases bs with _ | ⟨b5, bs⟩; · simp at h
  rcases bs with _ | ⟨b6, bs⟩; · simp at h
  rcases bs with _ | ⟨b7, bs⟩; · simp at h
  rcases bs with _ | ⟨b8, bs⟩
  · exact ⟨b0, b1, b2, b3, b4, b5, b6, b7, rfl⟩
  · simp at h

theorem xor_two_pow_63_of_lt (v : Nat) (hv : v < 2 ^ 63) :
    v ^^^ 2 ^ 63 = v + 2 ^ 63 := by
  apply Nat.eq_of_testBit_eq
  intro i
  rcases Nat.lt_trichotomy i 63 with hlt | heq | hgt
  · rw [Nat.testBit_xor, Nat.testBit_two_pow, Nat.add_comm,
      Nat.testBit_two_pow_add_gt hlt]
    simp [Nat.ne_of_gt hlt]
  · subst heq
    rw [Nat.testBit_xor, Nat.testBit_two_pow, Nat.add_comm,
      Nat.testBit_two_pow_add_eq]
    simp [Nat.testBit_lt_two_pow hv]
  · have h64 : (2 : Nat) ^ 64 ≤ 2 ^ i :=
      Nat.pow_le_pow_right (by norm_num) hgt
    have h1 : v.testBit i = false :=
      Nat.testBit_lt_two_pow (by omega)
    have h2 : (v + 2 ^ 63).testBit i = false :=
      Nat.testBit_lt_two_pow (by omega)
    have h3 : (2 ^ 63 : Nat).testBit i = false := by
      rw [Nat.testBit_two_pow]
      simp [Nat.ne_of_lt hgt]
    rw [Nat.testBit_xor, h1, h2, h3]
    rfl

theorem xor_two_pow_63 (v : Nat) (hv : v < 2 ^ 64) :
    v ^^^ 2 ^ 63 = if v < 2 ^ 63 then v + 2 ^ 63 else v - 2 ^ 63 := by
  split
  · exact xor_two_pow_63_of_lt v (by assumption)
  · have hge : 2 ^ 63 ≤ v := Nat.le_of_not_lt (by assumption)
    have hw : v - 2 ^ 63 < 2 ^ 63 := by omega
    have h1 : v - 2 ^ 63 ^^^ 2 ^ 63 = (v - 2 ^ 63) + 2 ^ 63 :=
      xor_two_pow_63_of_lt _ hw
    have h2 : v - 2 ^ 63 + 2 ^ 63 = v := by omega
    calc v ^^^ 2 ^ 63
        = (v - 2 ^ 63 ^^^ 2 ^ 63) ^^^ 2 ^ 63 := by rw [h1, h2]
      _ = v - 2 ^ 63 ^^^ (2 ^ 63 ^^^ 2 ^ 63) := by
          rw [Nat.xor_assoc]
      _ = v - 2 ^ 63 := by rw [Nat.xor_self, Nat.xor_zero]

theorem i64ToU64_u64ToI64 (v : Nat) (hv : v < 2 ^ 64) :
    i64ToU64 (u64ToI64 v) = v := by
  unfold i64ToU64 u64ToI64
  split <;> omega

theorem i64ToU64_neg_two_pow_63 : i64ToU64 (-(2 ^ 63)) = 2 ^ 63 := by
  unfold i64ToU64
  decide

theorem toU64_lt_of_wf (h : PixelHash) (hw : h.WF) : h.toU64 < 2 ^ 64 := by
  obtain ⟨hlen, hlt⟩ := hw
  obtain ⟨b0, b1, b2, b3, b4, b5, b6, b7, hb⟩ := exists_eight_of_length h.bytes hlen
  have h0 := hlt b0 (by rw [hb]; simp)
  have h1 := hlt b1 (by rw [hb]; simp)
  have h2 := hlt b2 (by rw [hb]; simp)
  have h3 := hlt b3 (by rw [hb]; simp)
  have h4 := hlt b4 (by rw [hb]; simp)
  have h5 := hlt b5 (by rw [hb]; simp)
  have h6 := hlt b6 (by rw [hb]; simp)
  have h7 := hlt b7 (by rw [hb]; simp)
  unfold PixelHash.toU64
  rw [hb]
  simp only [List.foldl]
  omega

theorem ofU64_toU64 (h : PixelHash) (hw : h.WF) :
    PixelHash.ofU64 h.toU64 = h := by
  obtain ⟨hlen, hlt⟩ := hw
  obtain ⟨b0, b1, b2, b3, b4, b5, b6, b7, hb⟩ := exists_eight_of_length h.bytes hlen
  have h0 := hlt b0 (by rw [hb]; simp)
  have h1 := hlt b1 (by rw [hb]; simp)
  have h2 := hlt b2 (by rw [hb]; simp)
  have h3 := hlt b3 (by rw [hb]; simp)
  have h4 := hlt b4 (by rw [hb]; simp)
  have h5 := hlt b5 (by rw [hb]; simp)
  have h6 := hlt b6 (by rw [hb]; simp)
  have h7 := hlt b7 (by rw [hb]; simp)
  obtain ⟨bs⟩ := h
  simp only at hb
  subst hb
  unfold PixelHash.ofU64 PixelHash.toU64
  simp only [List.foldl]
  congr 1
  simp only [List.cons.injEq, and_true]
  refine ⟨?_, ?_, ?_, ?_, ?_, ?_, ?_, ?_⟩ <;> omega

theorem toU64_ofU64 (v : Nat) (hv : v < 2 ^ 64) :
    (PixelHash.ofU64 v).toU64 = v := by
  unfold PixelHash.ofU64 PixelHash.toU64
  simp only [List.foldl]
  omega

theorem ofU64_wf (v : Nat) : (PixelHash.ofU64 v).WF := by
  unfold PixelHash.ofU64 PixelHash.WF
  refine ⟨rfl, ?_⟩
  intro b hb
  simp only [List.mem_cons, List.not_mem_nil, or_false] at hb
  rcases hb with h | h | h | h | h | h | h | h <;> subst h <;> omega

/-- Closed form of `to_signed`: on 64-bit values the XOR-with-sign-bit map is
    subtraction of `2^63`. -/
theorem toSigned_eq (h : PixelHash) (hw : h.WF) :
    h.toSigned = (h.toU64 : Int) - 2 ^ 63 := by
  have hv := toU64_lt_of_wf h hw
  unfold PixelHash.toSigned i64Xor
  rw [i64ToU64_u64ToI64 _ hv, i64ToU64_neg_two_pow_63, xor_two_pow_63 _ hv]
  unfold u64ToI64
  split
  · split <;> omega
  · split <;> omega

theorem fromSigned_toSigned (h : PixelHash) (hw : h.WF) :
    PixelHash.fromSigned h.toSigned = h := by
  have hv := toU64_lt_of_wf h hw
  have hxor : h.toU64 ^^^ 2 ^ 63 < 2 ^ 64 :=
    Nat.xor_lt_two_pow hv (by norm_num)
  unfold PixelHash.fromSigned
  unfold PixelHash.toSigned i64Xor
  rw [i64ToU64_u64ToI64 _ hv, i64ToU64_neg_two_pow_63,
    i64ToU64_u64ToI64 _ hxor, Nat.xor_assoc, Nat.xor_self, Nat.xor_zero]
  exact ofU64_toU64 h hw

theorem toSigned_fromSigned (v : Int) (h1 : -(2 ^ 63) ≤ v) (h2 : v < 2 ^ 63) :
    (PixelHash.fromSigned v).toSigned = v := by
  have hu : i64ToU64 v < 2 ^ 64 := by
    unfold i64ToU64; omega
  have hxor : i64ToU64 v ^^^ 2 ^ 63 < 2 ^ 64 :=
    Nat.xor_lt_two_pow hu (by norm_num)
  have hw : (PixelHash.fromSigned v).WF := ofU64_wf _
  rw [toSigned_eq _ hw]
  unfold PixelHash.fromSigned
  rw [toU64_ofU64 _ hxor, xor_two_pow_63 _ hu]
  unfold i64ToU64
  split <;> omega

/-- C4 endpoint computation helper: the all-zero hash. -/
theorem tryFrom_zeros :
    PixelHash.tryFrom (String.toList "0000000000000000") =
      .ok ⟨[0, 0, 0, 0, 0, 0, 0, 0]⟩ := by decide

/-- C4 endpoint computation helper: the all-ones hash. -/
theorem tryFrom_ffs :
    PixelHash.tryFrom (String.toList "ffffffffffffffff") =
      .ok ⟨[255, 255, 255, 255, 255, 255, 255, 255]⟩ := by decide

/-- C4: `to_signed`/`from_signed` form the XOR-with-sign-bit bijection between
    pixel hashes and signed 64-bit integers: the two maps are mutually inverse,
    the map preserves the order of the unsigned big-endian interpretation, and
    the all-zero hash maps to `i64::MIN` while the all-`f` hash maps to
    `i64::MAX`. -/
theorem pixelHash_signed_bijection :
    (∀ h : PixelHash, h.WF → PixelHash.fromSigned h.toSigned = h) ∧
    (∀ v : Int, -(2 ^ 63) ≤ v → v < 2 ^ 63 →
      (PixelHash.fromSigned v).toSigned = v) ∧
    (∀ h1 h2 : PixelHash, h1.WF → h2.WF →
      (h1.toU64 < h2.toU64 ↔ h1.toSigned < h2.toSigned)) ∧
    (PixelHash.tryFrom (String.toList "0000000000000000")).map PixelHash.toSigned
      = .ok (-(2 ^ 63)) ∧
    (PixelHash.tryFrom (String.toList "ffffffffffffffff")).map PixelHash.toSigned
      = .ok (2 ^ 63 - 1) := by
  refine ⟨fromSigned_toSigned, toSigned_fromSigned, ?_, ?_, ?_⟩
  · intro h1 h2 hw1 hw2
    rw [toSigned_eq _ hw1, toSigned_eq _ hw2]
    omega
  · decide
  · decide

/-- Witness for C4 at concrete inputs. -/
theorem pixelHash_signed_bijection_witness :
    PixelHash.fromSigned (PixelHash.mk [0, 1, 2, 3, 4, 5, 6, 7]).toSigned
      = PixelHash.mk [0, 1, 2, 3, 4, 5, 6, 7] ∧
    (PixelHash.fromSigned 5).toSigned = 5 ∧
    ((PixelHash.mk [0, 0, 0, 0, 0, 0, 0, 1]).toU64
        < (PixelHash.mk [255, 0, 0, 0, 0, 0, 0, 0]).toU64 ↔
      (PixelHash.mk [0, 0, 0, 0, 0, 0, 0, 1]).toSigned
        < (PixelHash.mk [255, 0, 0, 0, 0, 0, 0, 0]).toSigned) :=
  ⟨pixelHash_signed_bijection.1 _ (by decide),
   pixelHash_signed_bijection.2.1 5 (by decide) (by decide),
   pixelHash_signed_bijection.2.2.1 _ _ (by decide) (by decide)⟩


/-! ### Hexadecimal round trips (claim C10) -/

/-- The sixteen characters the canonical rendering can produce. -/
def lowerHexChars : List Char :=
  ['0', '1', '2', '3', '4'] ++ ['5', '6', '7', '8', '9'] ++ ['a', 'b', 'c', 'd', 'e', 'f']

/-- Splitting a list known to have sixteen elements. -/
theorem exists_sixteen_of_length {α : Type} (cs : List α) (h : cs.length = 16) :
    ∃ c0 c1 c2 c3 c4 c5 c6 c7 c8 c9 c10 c11 c12 c13 c14 c15,
      cs = [c0, c1, c2, c3, c4, c5, c6, c7, c8, c9, c10, c11, c12, c13, c14, c15] := by
  rcases cs with _ | ⟨c0, cs⟩; · simp at h
  rcases cs with _ | ⟨c1, cs⟩; · simp at h
  rcases cs with _ | ⟨c2, cs⟩; · simp at h
  rcases cs with _ | ⟨c3, cs⟩; · simp at h
  rcases cs with _ | ⟨c4, cs⟩; · simp at h
  rcases cs with _ | ⟨c5, cs⟩; · simp at h
  rcases cs with _ | ⟨c6, cs⟩; · simp at h
  rcases cs with _ | ⟨c7, cs⟩; · simp at h
  rcases cs with _ | ⟨c8, cs⟩; · simp at h
  rcases cs with _ | ⟨c9, cs⟩; · simp at h
  rcases cs with _ | ⟨c10, cs⟩; · simp at h
  rcases cs with _ | ⟨c11, cs⟩; · simp at h
  rcases cs with _ | ⟨c12, cs⟩; · simp at h
  rcases cs with _ | ⟨c13, cs⟩; · simp at h
  rcases cs with _ | ⟨c14, cs⟩; · simp at h
  rcases cs with _ | ⟨c15, cs⟩; · simp at h
  rcases cs with _ | ⟨c16, cs⟩
  · exact ⟨c0, c1, c2, c3, c4, c5, c6, c7, c8, c9, c10, c11, c12, c13, c14, c15, rfl⟩
  · simp at h

/-- Facts about a single hexadecimal digit character, by case analysis over
    the 22 digits. -/
theorem hexDigit_facts (c : Char) (hc : c ∈ hexDigits) :
    hexCharVal c < 16 ∧ hexDigitChar (hexCharVal c) = c.toLower ∧
      c.toLower ∈ hexDigits ∧ hexCharVal c.toLower = hexCharVal c ∧ c ≠ '+' := by
  fin_cases hc <;> decide

set_option maxRecDepth 4096 in
/-- Parsing a two-digit chunk of hexadecimal characters. -/
theorem fromStrRadix16_pair :
    ∀ a ∈ hexDigits, ∀ b ∈ hexDigits,
      fromStrRadix16 [a, b] = some (hexCharVal a * 16 + hexCharVal b) := by
  decide

set_option maxRecDepth 8192 in
/-- Parsing back the two-digit rendering of a byte. -/
theorem fromStrRadix16_hexBytePair :
    ∀ v : Nat, v < 256 →
      fromStrRadix16 [hexDigitChar (v / 16), hexDigitChar (v % 16)] = some v := by
  decide

set_option maxRecDepth 8192 in
/-- The two-digit rendering of a byte uses only lowercase hex characters. -/
theorem hexDigitChar_lower :
    ∀ v : Nat, v < 256 →
      hexDigitChar (v / 16) ∈ lowerHexChars ∧ hexDigitChar (v % 16) ∈ lowerHexChars := by
  decide

set_option maxRecDepth 4096 in
/-- Rendering the byte encoded by a chunk of hexadecimal digits lowercases the
    chunk. -/
theorem hexBytePair_of_pair :
    ∀ a ∈ hexDigits, ∀ b ∈ hexDigits,
      hexBytePair (hexCharVal a * 16 + hexCharVal b) = [a.toLower, b.toLower] := by
  decide


/-- C10: `PixelHash::try_from` accepts any 16-character string of hexadecimal
    digits regardless of letter case, and parsing is case-insensitive (an
    uppercase spelling parses to the same hash as its lowercase form); the
    canonical rendering is always lowercase, parsing round-trips the canonical
    form exactly, and parsing any hex spelling followed by rendering
    normalizes it to lowercase. -/
theorem pixelHash_hex_roundtrip :
    (∀ cs : List Char, cs.length = 16 → (∀ c ∈ cs, c ∈ hexDigits) →
      ∃ h : PixelHash, PixelHash.tryFrom cs = .ok h ∧
        PixelHash.tryFrom (cs.map Char.toLower) = .ok h ∧
        h.toHexString = cs.map Char.toLower) ∧
    (∀ h : PixelHash, h.WF →
      PixelHash.tryFrom h.toHexString = .ok h ∧
      ∀ c ∈ h.toHexString, c ∈ lowerHexChars) := by
  constructor
  · intro cs hlen hall
    obtain ⟨c0, c1, c2, c3, c4, c5, c6, c7, c8, c9, c10, c11, c12, c13, c14, c15, rfl⟩ :=
      exists_sixteen_of_length cs hlen
    have h0 := hall c0 (by simp)
    have h1 := hall c1 (by simp)
    have h2 := hall c2 (by simp)
    have h3 := hall c3 (by simp)
    have h4 := hall c4 (by simp)
    have h5 := hall c5 (by simp)
    have h6 := hall c6 (by simp)
    have h7 := hall c7 (by simp)
    have h8 := hall c8 (by simp)
    have h9 := hall c9 (by simp)
    have h10 := hall c10 (by simp)
    have h11 := hall c11 (by simp)
    have h12 := hall c12 (by simp)
    have h13 := hall c13 (by simp)
    have h14 := hall c14 (by simp)
    have h15 := hall c15 (by simp)
    refine ⟨⟨[hexCharVal c0 * 16 + hexCharVal c1, hexCharVal c2 * 16 + hexCharVal c3,
      hexCharVal c4 * 16 + hexCharVal c5, hexCharVal c6 * 16 + hexCharVal c7,
      hexCharVal c8 * 16 + hexCharVal c9, hexCharVal c10 * 16 + hexCharVal c11,
      hexCharVal c12 * 16 + hexCharVal c13, hexCharVal c14 * 16 + hexCharVal c15]⟩,
      ?_, ?_, ?_⟩
    · simp only [PixelHash.tryFrom,
        fromStrRadix16_pair c0 h0 c1 h1, fromStrRadix16_pair c2 h2 c3 h3,
        fromStrRadix16_pair c4 h4 c5 h5, fromStrRadix16_pair c6 h6 c7 h7,
        fromStrRadix16_pair c8 h8 c9 h9, fromStrRadix16_pair c10 h10 c11 h11,
        fromStrRadix16_pair c12 h12 c13 h13, fromStrRadix16_pair c14 h14 c15 h15]
    · simp only [List.map]
      simp only [PixelHash.tryFrom,
        fromStrRadix16_pair _ (hexDigit_facts c0 h0).2.2.1 _ (hexDigit_facts c1 h1).2.2.1,
        fromStrRadix16_pair _ (hexDigit_facts c2 h2).2.2.1 _ (hexDigit_facts c3 h3).2.2.1,
        fromStrRadix16_pair _ (hexDigit_facts c4 h4).2.2.1 _ (hexDigit_facts c5 h5).2.2.1,
        fromStrRadix16_pair _ (hexDigit_facts c6 h6).2.2.1 _ (hexDigit_facts c7 h7).2.2.1,
        fromStrRadix16_pair _ (hexDigit_facts c8 h8).2.2.1 _ (hexDigit_facts c9 h9).2.2.1,
        fromStrRadix16_pair _ (hexDigit_facts c10 h10).2.2.1 _ (hexDigit_facts c11 h11).2.2.1,
        fromStrRadix16_pair _ (hexDigit_facts c12 h12).2.2.1 _ (hexDigit_facts c13 h13).2.2.1,
        fromStrRadix16_pair _ (hexDigit_facts c14 h14).2.2.1 _ (hexDigit_facts c15 h15).2.2.1,
        (hexDigit_facts c0 h0).2.2.2.1, (hexDigit_facts c1 h1).2.2.2.1,
        (hexDigit_facts c2 h2).2.2.2.1, (hexDigit_facts c3 h3).2.2.2.1,
        (hexDigit_facts c4 h4).2.2.2.1, (hexDigit_facts c5 h5).2.2.2.1,
        (hexDigit_facts c6 h6).2.2.2.1, (hexDigit_facts c7 h7).2.2.2.1,
        (hexDigit_facts c8 h8).2.2.2.1, (hexDigit_facts c9 h9).2.2.2.1,
        (hexDigit_facts c10 h10).2.2.2.1, (hexDigit_facts c11 h11).2.2.2.1,
        (hexDigit_facts c12 h12).2.2.2.1, (hexDigit_facts c13 h13).2.2.2.1,
        (hexDigit_facts c14 h14).2.2.2.1, (hexDigit_facts c15 h15).2.2.2.1]
    · simp only [PixelHash.toHexString, List.foldl, List.nil_append, List.append_assoc,
        hexBytePair_of_pair c0 h0 c1 h1, hexBytePair_of_pair c2 h2 c3 h3,
        hexBytePair_of_pair c4 h4 c5 h5, hexBytePair_of_pair c6 h6 c7 h7,
        hexBytePair_of_pair c8 h8 c9 h9, hexBytePair_of_pair c10 h10 c11 h11,
        hexBytePair_of_pair c12 h12 c13 h13, hexBytePair_of_pair c14 h14 c15 h15,
        List.map]
      simp
  · intro h hw
    obtain ⟨hlen, hlt⟩ := hw
    obtain ⟨b0, b1, b2, b3, b4, b5, b6, b7, hb⟩ := exists_eight_of_length h.bytes hlen
    have h0 := hlt b0 (by rw [hb]; simp)
    have h1 := hlt b1 (by rw [hb]; simp)
    have h2 := hlt b2 (by rw [hb]; simp)
    have h3 := hlt b3 (by rw [hb]; simp)
    have h4 := hlt b4 (by rw [hb]; simp)
    have h5 := hlt b5 (by rw [hb]; simp)
    have h6 := hlt b6 (by rw [hb]; simp)
    have h7 := hlt b7 (by rw [hb]; simp)
    obtain ⟨bs⟩ := h
    simp only at hb
    subst hb
    have hstr : PixelHash.toHexString ⟨[b0, b1, b2, b3, b4, b5, b6, b7]⟩ =
        [hexDigitChar (b0 / 16), hexDigitChar (b0 % 16),
         hexDigitChar (b1 / 16), hexDigitChar (b1 % 16),
         hexDigitChar (b2 / 16), hexDigitChar (b2 % 16),
         hexDigitChar (b3 / 16), hexDigitChar (b3 % 16),
         hexDigitChar (b4 / 16), hexDigitChar (b4 % 16),
         hexDigitChar (b5 / 16), hexDigitChar (b5 % 16),
         hexDigitChar (b6 / 16), hexDigitChar (b6 % 16),
         hexDigitChar (b7 / 16), hexDigitChar (b7 % 16)] := by
      simp [PixelHash.toHexString, hexBytePair, List.foldl]
    rw [hstr]
    constructor
    · simp only [PixelHash.tryFrom,
        fromStrRadix16_hexBytePair b0 h0, fromStrRadix16_hexBytePair b1 h1,
        fromStrRadix16_hexBytePair b2 h2, fromStrRadix16_hexBytePair b3 h3,
        fromStrRadix16_hexBytePair b4 h4, fromStrRadix16_hexBytePair b5 h5,
        fromStrRadix16_hexBytePair b6 h6, fromStrRadix16_hexBytePair b7 h7]
    · intro c hc
      simp only [List.mem_cons, List.not_mem_nil, or_false] at hc
      rcases hc with h | h | h | h | h | h | h | h | h | h | h | h | h | h | h | h <;>
        subst h
      · exact (hexDigitChar_lower b0 h0).1
      · exact (hexDigitChar_lower b0 h0).2
      · exact (hexDigitChar_lower b1 h1).1
      · exact (hexDigitChar_lower b1 h1).2
      · exact (hexDigitChar_lower b2 h2).1
      · exact (hexDigitChar_lower b2 h2).2
      · exact (hexDigitChar_lower b3 h3).1
      · exact (hexDigitChar_lower b3 h3).2
      · exact (hexDigitChar_lower b4 h4).1
      · exact (hexDigitChar_lower b4 h4).2
      · exact (hexDigitChar_lower b5 h5).1
      · exact (hexDigitChar_lower b5 h5).2
      · exact (hexDigitChar_lower b6 h6).1
      · exact (hexDigitChar_lower b6 h6).2
      · exact (hexDigitChar_lower b7 h7).1
      · exact (hexDigitChar_lower b7 h7).2

/-- Witness for C10 at concrete inputs: the all-uppercase spelling and a
    concrete hash. -/
theorem pixelHash_hex_roundtrip_witness :
    (∃ h : PixelHash, PixelHash.tryFrom (String.toList "FFFFFFFFFFFFFFFF") = .ok h ∧
        PixelHash.tryFrom ((String.toList "FFFFFFFFFFFFFFFF").map Char.toLower) = .ok h ∧
        h.toHexString = (String.toList "FFFFFFFFFFFFFFFF").map Char.toLower) ∧
    PixelHash.tryFrom (PixelHash.mk [0, 17, 34, 51, 68, 85, 102, 119]).toHexString
      = .ok ⟨[0, 17, 34, 51, 68, 85, 102, 119]⟩ :=
  ⟨pixelHash_hex_roundtrip.1 _ (by decide) (by decide),
   (pixelHash_hex_roundtrip.2 ⟨[0, 17, 34, 51, 68, 85, 102, 119]⟩ (by decide)).1⟩


/-! ### The content-addressed media store (`src/storage.rs`, `Storage`) -/

/-- Strings of the storage and parser models, as character lists (the header
    note on ASCII applies). -/
abbrev Str : Type := List Char

/-- One file in the store, relative to the root: shard directory, filename
    stem, and extension; its name renders as `stem.ext` inside `dir`. -/
structure StoredFile where
  dir : Str
  stem : Str
  ext : Str
deriving DecidableEq, Repr

/-- `infer::Type`, of which the store consults only the extension. -/
structure InferType where
  ext : Str
deriving DecidableEq, Repr

/-- The decoded `Media` of `src/storage.rs` after `Media::new`. Pixel buffers
    are abstracted to the pixel hash that `compute_pixel_hash` (an external
    seeded XxHash64 over the RGBA bytes) yields for them — for a video, for
    its derived thumbnail; `create_file` uses the decoded pixels only through
    that hash. -/
inductive Media where
  | image (hash : PixelHash) (kind : InferType)
  | video (hash : PixelHash) (kind : InferType)
deriving DecidableEq, Repr

/-- The pixel hash `create_file` computes for the media. -/
def Media.pixelHash : Media → PixelHash
  | .image h _ => h
  | .video h _ => h

/-- `Storage::derive_dir`: `format!("{:02x}/{:02x}", bytes[0], bytes[1])`. -/
def deriveDirChars (h : PixelHash) : Str :=
  hexBytePair (h.bytes.getD 0 0) ++ '/' :: hexBytePair (h.bytes.getD 1 0)

/-- A file's name, `{stem}.{ext}`. -/
def StoredFile.name (f : StoredFile) : Str :=
  f.stem ++ '.' :: f.ext

/-- The absolute path of a matched file, as produced by globbing
    `derive_abs_dir(hash)` (the root joined with the shard directory). -/
def absFilePath (root : Str) (h : PixelHash) (f : StoredFile) : Str :=
  root ++ '/' :: deriveDirChars h ++ '/' :: f.name

/-- The result of `find_entry` before path rendering. -/
inductive MediaEntry where
  | image (f : StoredFile)
  | video (video thumb : StoredFile)
deriving DecidableEq, Repr

/-- The file whose path `MediaPath::content_path` exposes: the single file of
    an image, the video file (not the thumbnail) of a video. -/
def MediaEntry.contentFile : MediaEntry → StoredFile
  | .image f => f
  | .video v _ => v

/-- `MediaPath` of `src/storage.rs`, with rendered paths. -/
inductive MediaPath where
  | image (p : Str)
  | video (video thumb : Str)
deriving DecidableEq, Repr

/-- All paths a `MediaPath` carries. -/
def MediaPath.allPaths : MediaPath → List Str
  | .image p => [p]
  | .video v t => [v, t]

/-- Whether a stored file is matched by `find_entry`'s glob
    `derive_abs_dir(hash)/<hash>.*` for the given hash. -/
def matchesHash (h : PixelHash) (f : StoredFile) : Bool :=
  f.dir == deriveDirChars h && f.stem == h.toHexString

/-- `Storage::find_entry`: glob for `<hash>.*` under the shard directory; one
    match is an image; two matches split into the `.png` thumbnail and the
    video file; any other count is absent. The source receives the glob's
    sorted order and pops the two entries; the png/non-png split below mirrors
    that match and is insensitive to the order, so the model keeps the store's
    list order. -/
def findEntry (fs : List StoredFile) (h : PixelHash) : Option MediaEntry :=
  match fs.filter (matchesHash h) with
  | [f] => some (.image f)
  | [f1, f2] =>
    if f2.ext == String.toList "png" then some (.video f1 f2)
    else if f1.ext == String.toList "png" then some (.video f2 f1)
    else none
  | _ => none

/-- The storage-relevant constructors of `StorageError`. -/
inductive StorageErr where
  | hashCollision (existingPath : Str)
  | unsupportedFile (kind : Option InferType)
  | fileNotFound (hash : PixelHash)
deriving DecidableEq, Repr

/-- The extensions `image::ImageFormat::from_extension` recognizes (the image
    crate's format registry); `create_file` fails with `UnsupportedFile` when
    the detected image kind's extension is outside it. -/
def imageFormatExts : List Str :=
  ["avif", "bmp", "dds", "exr", "ff", "gif", "hdr", "ico", "jpg", "jpeg",
   "png", "pnm", "pam", "pbm", "pgm", "ppm", "qoi", "tga", "tif", "tiff",
   "webp"].map String.toList

/-- `Storage::create_file` from the decoded media onward: compute the pixel
    hash; create the shard directory (directories are not part of the
    file-set model); if an entry already exists, fail with `HashCollision`
    carrying the existing asset's absolute content path; otherwise write the
    thumbnail then the video file (video), or the single image file (image,
    after checking the format is known). Filesystem write failures are not
    modelled. The result is returned with the resulting file set. -/
def createFile (root : Str) (fs : List StoredFile) (m : Media) :
    Except StorageErr PixelHash × List StoredFile :=
  let h := m.pixelHash
  match findEntry fs h with
  | some e => (.error (.hashCollision (absFilePath root h e.contentFile)), fs)
  | none =>
    match m with
    | .video _ kind =>
      (.ok h, fs ++ [⟨deriveDirChars h, h.toHexString, String.toList "png"⟩,
                     ⟨deriveDirChars h, h.toHexString, kind.ext⟩])
    | .image _ kind =>
      if kind.ext ∈ imageFormatExts then
        (.ok h, fs ++ [⟨deriveDirChars h, h.toHexString, kind.ext⟩])
      else (.error (.unsupportedFile (some kind)), fs)

/-- `Storage::index_file`: render the found entry's paths relative to the
    root, as `derive_dir(hash)` joined with each file name. -/
def indexFile (fs : List StoredFile) (h : PixelHash) : Option MediaPath :=
  (findEntry fs h).map (fun e =>
    match e with
    | .image f => .image (deriveDirChars h ++ '/' :: f.name)
    | .video v t => .video (deriveDirChars h ++ '/' :: v.name)
                           (deriveDirChars h ++ '/' :: t.name))

/-- C1: if an asset for the media's fingerprint already exists on disk,
    `create_file` fails with `HashCollision` whose `existing_path` is the
    existing asset's path, and the set of stored files is unchanged. -/
theorem createFile_hashCollision (root : Str) (fs : List StoredFile)
    (m : Media) (e : MediaEntry)
    (hfind : findEntry fs m.pixelHash = some e) :
    createFile root fs m =
      (.error (.hashCollision (absFilePath root m.pixelHash e.contentFile)), fs) := by
  unfold createFile
  simp only [hfind]

/-- Witness for C1: the dedup-on-reencode scenario — a png asset for
    `44a5b6f94f4f6445` is stored, and archiving a webp re-encoding with the
    same pixel content fails with `HashCollision` at the png's path, leaving
    the store unchanged. -/
theorem createFile_hashCollision_witness :
    createFile (String.toList "root")
        [⟨String.toList "44/a5", String.toList "44a5b6f94f4f6445", String.toList "png"⟩]
        (.image ⟨[68, 165, 182, 249, 79, 79, 100, 69]⟩ ⟨String.toList "webp"⟩) =
      (.error (.hashCollision (String.toList "root/44/a5/44a5b6f94f4f6445.png")),
       [⟨String.toList "44/a5", String.toList "44a5b6f94f4f6445", String.toList "png"⟩]) := by
  have h := createFile_hashCollision (String.toList "root")
    [⟨String.toList "44/a5", String.toList "44a5b6f94f4f6445", String.toList "png"⟩]
    (.image ⟨[68, 165, 182, 249, 79, 79, 100, 69]⟩ ⟨String.toList "webp"⟩)
    (.image ⟨String.toList "44/a5", String.toList "44a5b6f94f4f6445", String.toList "png"⟩)
    (by decide)
  exact h.trans (by decide)


/-! ### The shard-layout invariant (claim C5) -/

/-- Rendering bytes after an accumulator: length bookkeeping. -/
theorem foldl_hexBytePair_length (bs : List Nat) (acc : List Char) :
    (bs.foldl (fun acc b => acc ++ hexBytePair b) acc).length
      = acc.length + 2 * bs.length := by
  induction bs generalizing acc with
  | nil => simp
  | cons b bs ih =>
    rw [List.foldl_cons, ih]
    simp only [List.length_append, hexBytePair, List.length_cons,
      List.length_nil]
    omega

/-- Rendering bytes after a lowercase accumulator stays lowercase. -/
theorem foldl_hexBytePair_lower (bs : List Nat) (acc : List Char)
    (hacc : ∀ c ∈ acc, c ∈ lowerHexChars) (hbs : ∀ b ∈ bs, b < 256) :
    ∀ c ∈ bs.foldl (fun acc b => acc ++ hexBytePair b) acc, c ∈ lowerHexChars := by
  induction bs generalizing acc with
  | nil => simpa using hacc
  | cons b bs ih =>
    intro c hc
    refine ih (acc ++ hexBytePair b) ?_ (fun x hx => hbs x (by simp [hx])) c hc
    intro c hc
    rcases List.mem_append.mp hc with h | h
    · exact hacc c h
    · have hlow := hexDigitChar_lower b (hbs b (by simp))
      simp only [hexBytePair, List.mem_cons, List.not_mem_nil, or_false] at h
      rcases h with h | h <;> subst h <;> tauto

/-- The canonical rendering of a well-formed hash has sixteen characters. -/
theorem toHexString_length (h : PixelHash) (hw : h.WF) :
    h.toHexString.length = 16 := by
  unfold PixelHash.toHexString
  rw [foldl_hexBytePair_length, hw.1]
  rfl

/-- The canonical rendering of a well-formed hash is lowercase hex. -/
theorem toHexString_lower (h : PixelHash) (hw : h.WF) :
    ∀ c ∈ h.toHexString, c ∈ lowerHexChars := by
  unfold PixelHash.toHexString
  exact foldl_hexBytePair_lower h.bytes [] (by simp) hw.2

/-- A path of the sharded form `HH/HH/<16-hex-fingerprint>.<ext>`: the two
    shard segments are the first and second hash bytes as two-digit lowercase
    hex, and the stem is the hash's canonical rendering. -/
def isShardPath (h : PixelHash) (p : Str) : Prop :=
  ∃ ext, p = hexBytePair (h.bytes.getD 0 0) ++ '/' ::
    (hexBytePair (h.bytes.getD 1 0) ++ '/' :: (h.toHexString ++ '.' :: ext))

/-- The rendered relative location of a file stored for a hash. -/
theorem relPath_isShardPath (h : PixelHash) (ext : Str) :
    isShardPath h (deriveDirChars h ++ '/' ::
      StoredFile.name ⟨deriveDirChars h, h.toHexString, ext⟩) := by
  refine ⟨ext, ?_⟩
  simp [deriveDirChars, StoredFile.name]

/-- C5: after a fingerprint's asset is successfully created into a store that
    held no file for it, `index_file` returns a present path, every component
    of which has the sharded relative form `HH/HH/<fingerprint>.<ext>` with
    the `HH` segments the first two fingerprint bytes in two-digit lowercase
    hex; the fingerprint stem is 16 lowercase hex characters. -/
theorem createFile_indexFile_shard (root : Str) (fs fs' : List StoredFile)
    (m : Media) (fp : PixelHash) (hw : fp.WF)
    (hclean : fs.filter (matchesHash fp) = [])
    (hcreate : createFile root fs m = (.ok fp, fs')) :
    (∃ mp, indexFile fs' fp = some mp ∧ ∀ p ∈ mp.allPaths, isShardPath fp p) ∧
      fp.toHexString.length = 16 ∧ ∀ c ∈ fp.toHexString, c ∈ lowerHexChars := by
  refine ⟨?_, toHexString_length fp hw, toHexString_lower fp hw⟩
  rcases hfind : findEntry fs m.pixelHash with _ | e
  · simp only [createFile, hfind] at hcreate
    cases m with
    | video hsh kind =>
      simp only [Media.pixelHash] at hcreate hfind
      rw [Prod.mk.injEq] at hcreate
      obtain ⟨heq, rfl⟩ := hcreate
      injection heq with heq
      have heq2 := heq.symm
      subst heq2
      have hfilter : List.filter (matchesHash fp)
          (fs ++ [⟨deriveDirChars fp, fp.toHexString, String.toList "png"⟩,
                  ⟨deriveDirChars fp, fp.toHexString, kind.ext⟩]) =
          [⟨deriveDirChars fp, fp.toHexString, String.toList "png"⟩,
           ⟨deriveDirChars fp, fp.toHexString, kind.ext⟩] := by
        rw [List.filter_append, hclean, List.nil_append]
        simp [matchesHash]
      by_cases hpng : kind.ext = String.toList "png"
      · have hfe : findEntry
            (fs ++ [⟨deriveDirChars fp, fp.toHexString, String.toList "png"⟩,
                    ⟨deriveDirChars fp, fp.toHexString, kind.ext⟩]) fp =
            some (.video ⟨deriveDirChars fp, fp.toHexString, String.toList "png"⟩
                         ⟨deriveDirChars fp, fp.toHexString, kind.ext⟩) := by
          unfold findEntry
          rw [hfilter]
          simp [hpng]
        refine ⟨.video
            (deriveDirChars fp ++ '/' :: StoredFile.name
              ⟨deriveDirChars fp, fp.toHexString, String.toList "png"⟩)
            (deriveDirChars fp ++ '/' :: StoredFile.name
              ⟨deriveDirChars fp, fp.toHexString, kind.ext⟩), ?_, ?_⟩
        · simp only [indexFile, hfe, Option.map]
        · intro p hp
          simp only [MediaPath.allPaths, List.mem_cons, List.not_mem_nil,
            or_false] at hp
          rcases hp with h | h <;> subst h <;> exact relPath_isShardPath fp _
      · have hfe : findEntry
            (fs ++ [⟨deriveDirChars fp, fp.toHexString, String.toList "png"⟩,
                    ⟨deriveDirChars fp, fp.toHexString, kind.ext⟩]) fp =
            some (.video ⟨deriveDirChars fp, fp.toHexString, kind.ext⟩
                         ⟨deriveDirChars fp, fp.toHexString, String.toList "png"⟩) := by
          unfold findEntry
          rw [hfilter]
          simp [hpng]
          intro h
          exact absurd h hpng
        refine ⟨.video
            (deriveDirChars fp ++ '/' :: StoredFile.name
              ⟨deriveDirChars fp, fp.toHexString, kind.ext⟩)
            (deriveDirChars fp ++ '/' :: StoredFile.name
              ⟨deriveDirChars fp, fp.toHexString, String.toList "png"⟩), ?_, ?_⟩
        · simp only [indexFile, hfe, Option.map]
        · intro p hp
          simp only [MediaPath.allPaths, List.mem_cons, List.not_mem_nil,
            or_false] at hp
          rcases hp with h | h <;> subst h <;> exact relPath_isShardPath fp _
    | image hsh kind =>
      simp only [Media.pixelHash] at hcreate hfind
      by_cases hext : kind.ext ∈ imageFormatExts
      · rw [if_pos hext, Prod.mk.injEq] at hcreate
        obtain ⟨heq, rfl⟩ := hcreate
        injection heq with heq
        have heq2 := heq.symm
        subst heq2
        have hfe : findEntry
            (fs ++ [⟨deriveDirChars fp, fp.toHexString, kind.ext⟩]) fp =
            some (.image ⟨deriveDirChars fp, fp.toHexString, kind.ext⟩) := by
          unfold findEntry
          rw [List.filter_append, hclean, List.nil_append]
          simp [matchesHash]
        refine ⟨.image (deriveDirChars fp ++ '/' :: StoredFile.name
            ⟨deriveDirChars fp, fp.toHexString, kind.ext⟩), ?_, ?_⟩
        · simp only [indexFile, hfe, Option.map]
        · intro p hp
          simp only [MediaPath.allPaths, List.mem_cons, List.not_mem_nil,
            or_false] at hp
          subst hp
          exact relPath_isShardPath fp _
      · rw [if_neg hext] at hcreate
        simp at hcreate
  · simp only [createFile, hfind] at hcreate
    simp at hcreate


/-- Witness for C5: creating a png asset for fingerprint `44a5b6f94f4f6445`
    in an empty store and indexing it back. -/
theorem createFile_indexFile_shard_witness :
    (∃ mp, indexFile (createFile (String.toList "root") []
          (.image ⟨[68, 165, 182, 249, 79, 79, 100, 69]⟩ ⟨String.toList "png"⟩)).2
          ⟨[68, 165, 182, 249, 79, 79, 100, 69]⟩ = some mp ∧
        ∀ p ∈ mp.allPaths, isShardPath ⟨[68, 165, 182, 249, 79, 79, 100, 69]⟩ p) ∧
      (⟨[68, 165, 182, 249, 79, 79, 100, 69]⟩ : PixelHash).toHexString.length = 16 ∧
      ∀ c ∈ (⟨[68, 165, 182, 249, 79, 79, 100, 69]⟩ : PixelHash).toHexString,
        c ∈ lowerHexChars :=
  createFile_indexFile_shard (String.toList "root") []
    (createFile (String.toList "root") []
      (.image ⟨[68, 165, 182, 249, 79, 79, 100, 69]⟩ ⟨String.toList "png"⟩)).2
    (.image ⟨[68, 165, 182, 249, 79, 79, 100, 69]⟩ ⟨String.toList "png"⟩)
    ⟨[68, 165, 182, 249, 79, 79, 100, 69]⟩
    (by decide) (by decide) (by decide)


/-! ### The relational catalog (`src/database.rs`, `Database`) -/

/-- One `image_metadatas` row as the catalog reads it back (`ImageMetadata`
    through `FromRow`). The `duration` column (an `f64`) is omitted: floating
    point is outside this embedding and no verified claim consults it. -/
structure MetaRow where
  width : Nat
  height : Nat
  format : Str
  colorType : Str
  fileSize : Nat
  createdAt : Str
deriving DecidableEq, Repr

/-- `Default::default()` for a metadata row (`unwrap_or_default` in `find`). -/
def defaultMetaRow : MetaRow :=
  ⟨0, 0, [], [], 0, []⟩

/-- The catalog's relational state: `images(hash, source)`, `tags(name)`,
    `image_tags(image_hash, tag_name)`, `image_metadatas` keyed by hash.
    Row order models the backend's native return order (insertion order).
    Keys are the 16-hex canonical fingerprint form the catalog binds. -/
structure CatalogState where
  images : List (Str × Option Str)
  tags : List Str
  imageTags : List (Str × Str)
  metadatas : List (Str × MetaRow)
deriving DecidableEq, Repr

/-- `Database::image_exists`. -/
def imageExists (st : CatalogState) (key : Str) : Bool :=
  st.images.any (fun r => r.1 == key)

/-- `Database::ensure_image`: short-circuit if present, else insert with
    conflict-ignore. -/
def ensureImage (st : CatalogState) (key : Str) : CatalogState :=
  if imageExists st key then st
  else { st with images := st.images ++ [(key, none)] }

/-- `Database::ensure_tags`: insert each tag with conflict-ignore, in one
    transaction (the model is total, so transactionality is invisible). -/
def ensureTags (st : CatalogState) (ts : List Str) : CatalogState :=
  { st with
    tags := ts.foldl (fun acc t => if t ∈ acc then acc else acc ++ [t]) st.tags }

/-- `Database::ensure_image_has_tags`: `ensure_image`, `ensure_tags`, then
    insert each `(hash, tag)` pair with conflict-ignore. -/
def ensureImageHasTags (st : CatalogState) (key : Str) (ts : List Str) :
    CatalogState :=
  let st := ensureImage st key
  let st := ensureTags st ts
  { st with
    imageTags := ts.foldl
      (fun ps t => if (key, t) ∈ ps then ps else ps ++ [(key, t)]) st.imageTags }

/-- `Database::ensure_tags_removed`: delete each `(hash, tag)` pair. -/
def ensureTagsRemoved (st : CatalogState) (key : Str) (ts : List Str) :
    CatalogState :=
  { st with
    imageTags := ts.foldl
      (fun ps t => ps.filter (fun q => !(q.1 == key && q.2 == t))) st.imageTags }

/-- `Database::get_tags`: the `tag_name` column of the rows for the hash, in
    the backend's return order. -/
def getTags (st : CatalogState) (key : Str) : List Str :=
  (st.imageTags.filter (fun p => p.1 == key)).map (fun p => p.2)

/-- `Database::get_metadata`: the first metadata row for the hash, if any. -/
def getMetadata (st : CatalogState) (key : Str) : Option MetaRow :=
  (st.metadatas.find? (fun r => r.1 == key)).map (fun r => r.2)

/-- `Database::get_source`: the `source` column of the image row, if any. -/
def getSource (st : CatalogState) (key : Str) : Option Str :=
  (st.images.find? (fun r => r.1 == key)).bind (fun r => r.2)

/-! ### The orchestrator (`src/app.rs`) -/

/-- `AppError`. The catalog model is total (retries and transient failures
    are not modelled), so of the three variants only `StorageNotFound`
    arises inside the modelled flows. -/
inductive AppErr where
  | storage (e : StorageErr)
  | database
  | storageNotFound (hash : PixelHash)
deriving DecidableEq, Repr

/-- `attach_tags` of `src/app.rs`: require the asset present in the store,
    set-diff the desired tags against the current ones, then add the missing
    pairs and remove the stale ones. The source materializes `desired` and
    `current` as hash sets and iterates their differences in unspecified
    order; the model iterates in first-occurrence order (`dedup`), which the
    set-valued claims are insensitive to. -/
def attachTags (fs : List StoredFile) (st : CatalogState) (h : PixelHash)
    (tags : List Str) : Except AppErr CatalogState :=
  if (indexFile fs h).isNone then .error (.storageNotFound h)
  else
    let key := h.toHexString
    let desired := tags.dedup
    let current := getTags st key
    let toAdd := desired.filter (fun t => decide (t ∉ current))
    let toRemove := current.dedup.filter (fun t => decide (t ∉ desired))
    let st := ensureImageHasTags st key toAdd
    .ok (ensureTagsRemoved st key toRemove)

/-- The `Media` view struct of `src/app.rs` (path, hash, metadata, tags,
    optional source), named `MediaView` to avoid clashing with the decoded
    media of the store. -/
structure MediaView where
  path : MediaPath
  hash : PixelHash
  metadata : MetaRow
  tags : List Str
  source : Option Str
deriving DecidableEq, Repr

/-- `find_image_by_hash`: the store path is required (else
    `StorageNotFound`); tags, metadata (defaulted when absent) and source
    come from the catalog. -/
def findImageByHash (fs : List StoredFile) (st : CatalogState)
    (h : PixelHash) : Except AppErr MediaView :=
  match indexFile fs h with
  | none => .error (.storageNotFound h)
  | some p =>
    .ok { path := p, hash := h,
          metadata := (getMetadata st h.toHexString).getD defaultMetaRow,
          tags := getTags st h.toHexString,
          source := getSource st h.toHexString }

/-- Lookup in the fan-out collation map (a `HashMap` in the source, modelled
    as an association list with unique keys). -/
def mapLookup (m : List (PixelHash × MediaView)) (h : PixelHash) :
    Option MediaView :=
  (m.find? (fun p => p.1 == h)).map (fun p => p.2)

/-- Removal from the collation map. -/
def mapRemove (m : List (PixelHash × MediaView)) (h : PixelHash) :
    List (PixelHash × MediaView) :=
  m.filter (fun p => !(p.1 == h))

/-- Insertion into the collation map; overwrites the key. -/
def mapInsert (m : List (PixelHash × MediaView)) (h : PixelHash)
    (v : MediaView) : List (PixelHash × MediaView) :=
  (h, v) :: mapRemove m h

/-- The `while let Some(result) = set.join_next()` loop of `query_image`:
    spawned `find` tasks complete in a scheduler-chosen order; each
    completion either surfaces its error immediately or inserts its view
    into the collation map. -/
def joinLoop (find : PixelHash → Except AppErr MediaView) :
    List PixelHash → List (PixelHash × MediaView) →
      Except AppErr (List (PixelHash × MediaView))
  | [], m => .ok m
  | h :: rest, m =>
    match find h with
    | .ok v => joinLoop find rest (mapInsert m h v)
    | .error e => .error e

/-- The final collation of `query_image`: iterate the catalog's ordered
    hash list and `remove` each hash from the map, dropping hashes the map
    no longer holds (`filter_map(|h| map.remove(&h))`). -/
def collate : List PixelHash → List (PixelHash × MediaView) → List MediaView
  | [], _ => []
  | h :: t, m =>
    match mapLookup m h with
    | some v => v :: collate t (mapRemove m h)
    | none => collate t m

/-- `query_image` of `src/app.rs`, given the fingerprint list the catalog
    returned and the order in which the spawned tasks complete (a
    permutation of that list chosen by the scheduler). -/
def queryImageModel (fs : List StoredFile) (st : CatalogState)
    (hashes completion : List PixelHash) : Except AppErr (List MediaView) :=
  match joinLoop (findImageByHash fs st) completion [] with
  | .error e => .error e
  | .ok m => .ok (collate hashes m)


/-! ### Tag reconciliation (claims C2 and C3) -/

/-- Membership after inserting `(key, t)` pairs with conflict-ignore. -/
theorem mem_insertPairs (key : Str) (ts : List Str) (ps : List (Str × Str))
    (p : Str × Str) :
    p ∈ ts.foldl (fun ps t => if (key, t) ∈ ps then ps else ps ++ [(key, t)]) ps ↔
      p ∈ ps ∨ (p.1 = key ∧ p.2 ∈ ts) := by
  obtain ⟨p1, p2⟩ := p
  induction ts generalizing ps with
  | nil => simp
  | cons t ts ih =>
    rw [List.foldl_cons]
    by_cases hmem : (key, t) ∈ ps
    · rw [if_pos hmem, ih]
      simp only [List.mem_cons]
      constructor
      · rintro (h | ⟨rfl, h⟩) <;> tauto
      · rintro (h | ⟨rfl, rfl | h⟩) <;> tauto
    · rw [if_neg hmem, ih]
      simp only [List.mem_append, List.mem_singleton, Prod.mk.injEq,
        List.mem_cons]
      constructor
      · rintro ((h | ⟨rfl, rfl⟩) | ⟨rfl, h⟩) <;> tauto
      · rintro (h | ⟨rfl, rfl | h⟩) <;> tauto

/-- Membership after deleting `(key, t)` pairs. -/
theorem mem_removePairs (key : Str) (ts : List Str) (ps : List (Str × Str))
    (p : Str × Str) :
    p ∈ ts.foldl (fun ps t => ps.filter (fun q => !(q.1 == key && q.2 == t))) ps ↔
      p ∈ ps ∧ ¬(p.1 = key ∧ p.2 ∈ ts) := by
  obtain ⟨p1, p2⟩ := p
  induction ts generalizing ps with
  | nil => simp
  | cons t ts ih =>
    rw [List.foldl_cons, ih]
    simp only [List.mem_filter, Bool.not_eq_eq_eq_not, Bool.not_true,
      Bool.and_eq_false_imp, beq_iff_eq, List.mem_cons]
    constructor
    · rintro ⟨⟨hp, hne⟩, hnot⟩
      refine ⟨hp, ?_⟩
      rintro ⟨rfl, rfl | h⟩
      · exact absurd (hne rfl) (by simp)
      · exact hnot ⟨rfl, h⟩
    · rintro ⟨hp, hnot⟩
      refine ⟨⟨hp, ?_⟩, ?_⟩
      · intro h1
        simp only [Bool.not_eq_true', beq_eq_false_iff_ne, ne_eq]
        intro h2
        exact hnot ⟨by simpa using h1, Or.inl (by simpa using h2)⟩
      · rintro ⟨rfl, h⟩
        exact hnot ⟨rfl, Or.inr h⟩

/-- A tag is returned by `get_tags` exactly when its pair row is present. -/
theorem mem_getTags (st : CatalogState) (key t : Str) :
    t ∈ getTags st key ↔ (key, t) ∈ st.imageTags := by
  unfold getTags
  simp only [List.mem_map, List.mem_filter]
  constructor
  · rintro ⟨⟨p1, p2⟩, ⟨hmem, hk⟩, rfl⟩
    simp only [beq_iff_eq] at hk
    subst hk
    exact hmem
  · intro hmem
    exact ⟨(key, t), ⟨hmem, by simp⟩, rfl⟩

/-- `ensure_image` leaves the `image_tags` rows unchanged. -/
theorem imageTags_ensureImage (st : CatalogState) (key : Str) :
    (ensureImage st key).imageTags = st.imageTags := by
  unfold ensureImage
  split <;> rfl

/-- `ensure_tags` leaves the `image_tags` rows unchanged. -/
theorem imageTags_ensureTags (st : CatalogState) (ts : List Str) :
    (ensureTags st ts).imageTags = st.imageTags := rfl

/-- The `image_tags` rows after `ensure_image_has_tags`. -/
theorem imageTags_ensureImageHasTags (st : CatalogState) (key : Str)
    (ts : List Str) :
    (ensureImageHasTags st key ts).imageTags =
      ts.foldl (fun ps t => if (key, t) ∈ ps then ps else ps ++ [(key, t)])
        st.imageTags := by
  simp only [ensureImageHasTags, imageTags_ensureTags, imageTags_ensureImage]

/-- The `image_tags` rows after `ensure_tags_removed`. -/
theorem imageTags_ensureTagsRemoved (st : CatalogState) (key : Str)
    (ts : List Str) :
    (ensureTagsRemoved st key ts).imageTags =
      ts.foldl (fun ps t => ps.filter (fun q => !(q.1 == key && q.2 == t)))
        st.imageTags := rfl

/-- C2: when the asset is present in the store and `attach_tags` succeeds,
    the tag set held for the fingerprint equals the desired tag list, as
    sets (order-independent). -/
theorem attachTags_sets_tags (fs : List StoredFile) (st : CatalogState)
    (h : PixelHash) (T : List Str) (st' : CatalogState)
    (hok : attachTags fs st h T = .ok st') :
    ∀ t, t ∈ getTags st' h.toHexString ↔ t ∈ T := by
  unfold attachTags at hok
  split at hok
  · exact absurd hok (by simp)
  · simp only [Except.ok.injEq] at hok
    subst hok
    intro t
    rw [mem_getTags, imageTags_ensureTagsRemoved, mem_removePairs,
      imageTags_ensureImageHasTags, mem_insertPairs]
    simp only [List.mem_filter, List.mem_dedup, decide_eq_true_eq, true_and]
    rw [← mem_getTags st h.toHexString t]
    by_cases hcur : t ∈ getTags st h.toHexString <;>
      by_cases hdes : t ∈ T <;> tauto

/-- Witness for C2: the set-semantic reconciliation scenario — an image
    carrying `{cat, scary}` reconciled to `["cat", "cute"]` ends with tag
    set `{cat, cute}`: `cute` is now present and `scary` is gone. -/
theorem attachTags_sets_tags_witness :
    (String.toList "cute" ∈ getTags
        (CatalogState.mk
          [(String.toList "44a5b6f94f4f6445", none)]
          [String.toList "cat", String.toList "scary", String.toList "cute"]
          [(String.toList "44a5b6f94f4f6445", String.toList "cat"),
           (String.toList "44a5b6f94f4f6445", String.toList "cute")]
          [])
        (PixelHash.mk [68, 165, 182, 249, 79, 79, 100, 69]).toHexString ↔
      String.toList "cute" ∈ [String.toList "cat", String.toList "cute"]) ∧
    (String.toList "scary" ∈ getTags
        (CatalogState.mk
          [(String.toList "44a5b6f94f4f6445", none)]
          [String.toList "cat", String.toList "scary", String.toList "cute"]
          [(String.toList "44a5b6f94f4f6445", String.toList "cat"),
           (String.toList "44a5b6f94f4f6445", String.toList "cute")]
          [])
        (PixelHash.mk [68, 165, 182, 249, 79, 79, 100, 69]).toHexString ↔
      String.toList "scary" ∈ [String.toList "cat", String.toList "cute"]) :=
  ⟨attachTags_sets_tags
      [⟨deriveDirChars ⟨[68, 165, 182, 249, 79, 79, 100, 69]⟩,
        (PixelHash.mk [68, 165, 182, 249, 79, 79, 100, 69]).toHexString,
        String.toList "png"⟩]
      (CatalogState.mk
        [(String.toList "44a5b6f94f4f6445", none)]
        [String.toList "cat", String.toList "scary"]
        [(String.toList "44a5b6f94f4f6445", String.toList "cat"),
         (String.toList "44a5b6f94f4f6445", String.toList "scary")]
        [])
      ⟨[68, 165, 182, 249, 79, 79, 100, 69]⟩
      [String.toList "cat", String.toList "cute"] _ (by decide)
      (String.toList "cute"),
   attachTags_sets_tags
      [⟨deriveDirChars ⟨[68, 165, 182, 249, 79, 79, 100, 69]⟩,
        (PixelHash.mk [68, 165, 182, 249, 79, 79, 100, 69]).toHexString,
        String.toList "png"⟩]
      (CatalogState.mk
        [(String.toList "44a5b6f94f4f6445", none)]
        [String.toList "cat", String.toList "scary"]
        [(String.toList "44a5b6f94f4f6445", String.toList "cat"),
         (String.toList "44a5b6f94f4f6445", String.toList "scary")]
        [])
      ⟨[68, 165, 182, 249, 79, 79, 100, 69]⟩
      [String.toList "cat", String.toList "cute"] _ (by decide)
      (String.toList "scary")⟩


/-- Characterization of a successful `attach_tags` call. -/
theorem attachTags_ok (fs : List StoredFile) (st : CatalogState)
    (h : PixelHash) (tags : List Str)
    (hnn : (indexFile fs h).isNone = false) :
    attachTags fs st h tags = .ok (ensureTagsRemoved
      (ensureImageHasTags st h.toHexString
        (tags.dedup.filter (fun t => decide (t ∉ getTags st h.toHexString))))
      h.toHexString
      ((getTags st h.toHexString).dedup.filter
        (fun t => decide (t ∉ tags.dedup)))) := by
  unfold attachTags
  rw [if_neg (by simp [hnn])]

/-- C3 counterexample: an image currently tagged `["cat"]`; `attach_tags`
    with the empty desired list succeeds but afterwards `get_tags` returns
    `[]`, not the unchanged `["cat"]` the claim requires. -/
theorem attachTags_empty_counterexample :
    getTags
        (CatalogState.mk [(String.toList "44a5b6f94f4f6445", none)]
          [String.toList "cat"]
          [(String.toList "44a5b6f94f4f6445", String.toList "cat")] [])
        (String.toList "44a5b6f94f4f6445") = [String.toList "cat"] ∧
    (attachTags
        [⟨deriveDirChars ⟨[68, 165, 182, 249, 79, 79, 100, 69]⟩,
          (PixelHash.mk [68, 165, 182, 249, 79, 79, 100, 69]).toHexString,
          String.toList "png"⟩]
        (CatalogState.mk [(String.toList "44a5b6f94f4f6445", none)]
          [String.toList "cat"]
          [(String.toList "44a5b6f94f4f6445", String.toList "cat")] [])
        ⟨[68, 165, 182, 249, 79, 79, 100, 69]⟩ []).map
      (fun st => getTags st (String.toList "44a5b6f94f4f6445")) = .ok [] := by
  decide

/-- C3 amended: calling `attach_tags` with an empty desired list reconciles
    the image to the empty tag set — it removes every existing tag
    association rather than leaving them unchanged (the archive workflow
    leaves tags untouched for an empty tag list only because it skips
    `attach_tags` entirely). -/
theorem attachTags_empty_clears (fs : List StoredFile) (st : CatalogState)
    (h : PixelHash) (hidx : (indexFile fs h).isSome) :
    ∃ st', attachTags fs st h [] = .ok st' ∧ getTags st' h.toHexString = [] := by
  have hnn : (indexFile fs h).isNone = false := by
    cases hx : indexFile fs h
    · rw [hx] at hidx
      simp at hidx
    · rfl
  refine ⟨_, attachTags_ok fs st h [] hnn, ?_⟩
  unfold getTags
  rw [List.map_eq_nil_iff, List.filter_eq_nil_iff]
  rintro ⟨p1, p2⟩ hp hk
  simp only [beq_iff_eq] at hk
  subst hk
  rw [imageTags_ensureTagsRemoved, mem_removePairs] at hp
  obtain ⟨hmem, hnot⟩ := hp
  rw [imageTags_ensureImageHasTags, mem_insertPairs] at hmem
  apply hnot
  refine ⟨rfl, ?_⟩
  rw [List.mem_filter, List.mem_dedup]
  refine ⟨?_, by simp⟩
  rcases hmem with hm | ⟨_, hm⟩
  · exact (mem_getTags st h.toHexString p2).mpr hm
  · simp at hm

/-- Witness for the amended C3 at a concrete store and catalog. -/
theorem attachTags_empty_clears_witness :
    ∃ st', attachTags
        [⟨deriveDirChars ⟨[68, 165, 182, 249, 79, 79, 100, 69]⟩,
          (PixelHash.mk [68, 165, 182, 249, 79, 79, 100, 69]).toHexString,
          String.toList "png"⟩]
        (CatalogState.mk [(String.toList "44a5b6f94f4f6445", none)]
          [String.toList "cat"]
          [(String.toList "44a5b6f94f4f6445", String.toList "cat")] [])
        ⟨[68, 165, 182, 249, 79, 79, 100, 69]⟩ [] = .ok st' ∧
      getTags st'
        (PixelHash.mk [68, 165, 182, 249, 79, 79, 100, 69]).toHexString = [] :=
  attachTags_empty_clears _ _ _ (by decide)


/-! ### Fan-out query retrieval (claim C6) -/

/-- Finding a key is unaffected by filtering out a different key. -/
theorem find?_key_filter (m : List (PixelHash × MediaView)) (h h' : PixelHash)
    (hne : h' ≠ h) :
    List.find? (fun p => p.1 == h') (m.filter (fun q => !(q.1 == h))) =
      List.find? (fun p => p.1 == h') m := by
  induction m with
  | nil => rfl
  | cons p rest ih =>
    by_cases hp : p.1 = h
    · have h1 : (p.1 == h) = true := by simp [hp]
      have h2 : (p.1 == h') = false := by simp [hp, Ne.symm hne]
      simp [List.filter_cons, List.find?_cons, h1, h2, ih]
    · have h1 : (p.1 == h) = false := by simp [hp]
      by_cases hph : p.1 = h'
      · have h2 : (p.1 == h') = true := by simp [hph]
        simp [List.filter_cons, List.find?_cons, h1, h2]
      · have h2 : (p.1 == h') = false := by simp [hph]
        simp [List.filter_cons, List.find?_cons, h1, h2, ih]

/-- Lookup after a removal: the removed key is gone, others unaffected. -/
theorem mapLookup_remove (m : List (PixelHash × MediaView)) (h h' : PixelHash)
    (hne : h' ≠ h) :
    mapLookup (mapRemove m h) h' = mapLookup m h' := by
  unfold mapLookup mapRemove
  rw [find?_key_filter m h h' hne]

/-- Lookup after an insert: the inserted key wins, other keys unaffected. -/
theorem mapLookup_insert (m : List (PixelHash × MediaView)) (h h' : PixelHash)
    (v : MediaView) :
    mapLookup (mapInsert m h v) h' =
      if h' = h then some v else mapLookup m h' := by
  by_cases heq : h' = h
  · subst heq
    rw [if_pos rfl]
    unfold mapInsert mapLookup
    simp [List.find?_cons]
  · rw [if_neg heq]
    unfold mapInsert mapLookup mapRemove
    have h1 : ((h, v).1 == h') = false := by simp [Ne.symm heq]
    simp only [List.find?_cons, h1]
    exact congrArg _ (find?_key_filter m h h' heq)


/-- A join loop in which every completed task succeeded produces the map
    holding each completed hash's view. -/
theorem joinLoop_ok (find : PixelHash → Except AppErr MediaView) :
    ∀ (order : List PixelHash) (acc : List (PixelHash × MediaView)),
      (∀ h ∈ order, (find h).isOk = true) →
      ∃ m, joinLoop find order acc = .ok m ∧
        ∀ h', mapLookup m h' =
          if h' ∈ order then (find h').toOption else mapLookup acc h' := by
  intro order
  induction order with
  | nil =>
    intro acc _
    exact ⟨acc, rfl, fun h' => by simp⟩
  | cons h rest ih =>
    intro acc hok
    obtain ⟨v, hv⟩ : ∃ v, find h = .ok v := by
      cases hfh : find h
      · have := hok h (by simp)
        rw [hfh] at this
        simp [Except.isOk, Except.toBool] at this
      · exact ⟨_, rfl⟩
    obtain ⟨m, hm, hl⟩ := ih (mapInsert acc h v)
      (fun x hx => hok x (by simp [hx]))
    refine ⟨m, ?_, ?_⟩
    · unfold joinLoop
      rw [hv]
      exact hm
    · intro h'
      rw [hl h', mapLookup_insert]
      by_cases h1 : h' ∈ rest
      · rw [if_pos h1, if_pos (by simp [h1])]
      · rw [if_neg h1]
        by_cases h2 : h' = h
        · subst h2
          rw [if_pos rfl, if_pos (by simp), hv]
          rfl
        · rw [if_neg h2, if_neg (by simp [h1, h2])]

/-- A join loop in which some completed task failed surfaces an error. -/
theorem joinLoop_error (find : PixelHash → Except AppErr MediaView) :
    ∀ (order : List PixelHash) (acc : List (PixelHash × MediaView))
      (h : PixelHash), h ∈ order → (find h).isOk = false →
      ∃ e, joinLoop find order acc = .error e := by
  intro order
  induction order with
  | nil =>
    intro acc h hmem _
    simp at hmem
  | cons h0 rest ih =>
    intro acc h hmem herr
    cases hf : find h0 with
    | error e =>
      exact ⟨e, by unfold joinLoop; rw [hf]⟩
    | ok v =>
      have hne : h ≠ h0 := by
        rintro rfl
        rw [hf] at herr
        simp [Except.isOk, Except.toBool] at herr
      have hmem2 : h ∈ rest := by
        rcases List.mem_cons.mp hmem with h1 | h1
        · exact absurd h1 hne
        · exact h1
      obtain ⟨e, he⟩ := ih (mapInsert acc h0 v) h hmem2 herr
      refine ⟨e, ?_⟩
      unfold joinLoop
      rw [hf]
      exact he

/-- Collating a duplicate-free hash list against a map that answers every
    hash yields exactly the per-hash values in list order. -/
theorem collate_eq_filterMap :
    ∀ (hashes : List PixelHash) (m : List (PixelHash × MediaView))
      (f : PixelHash → Option MediaView),
      hashes.Nodup →
      (∀ h ∈ hashes, mapLookup m h = f h) →
      (∀ h ∈ hashes, (f h).isSome = true) →
      collate hashes m = hashes.filterMap f := by
  intro hashes
  induction hashes with
  | nil =>
    intro m f _ _ _
    rfl
  | cons h t ih =>
    intro m f hnd hl hs
    obtain ⟨v, hv⟩ : ∃ v, f h = some v := by
      cases hf : f h
      · have := hs h (by simp)
        rw [hf] at this
        simp at this
      · exact ⟨_, rfl⟩
    rw [show collate (h :: t) m = v :: collate t (mapRemove m h) by
      simp only [collate]
      rw [hl h (by simp), hv]]
    rw [show (h :: t).filterMap f = v :: t.filterMap f by
      simp [List.filterMap_cons, hv]]
    congr 1
    refine ih (mapRemove m h) f (List.nodup_cons.mp hnd).2 ?_
      (fun x hx => hs x (by simp [hx]))
    intro x hx
    have hne : x ≠ h := by
      rintro rfl
      exact absurd hx (List.nodup_cons.mp hnd).1
    rw [mapLookup_remove m h x hne]
    exact hl x (by simp [hx])

/-- C6 amended: over a duplicate-free fingerprint list from the catalog and
    any task completion order, `query_image` returns the views in exactly
    the catalog's fingerprint order when every `find` succeeds, and surfaces
    an error whenever any `find` fails — including absence, which `find`
    reports as `StorageNotFound` and which is therefore surfaced rather than
    dropped. -/
theorem queryImage_order_and_errors (fs : List StoredFile) (st : CatalogState)
    (hashes completion : List PixelHash)
    (hperm : completion.Perm hashes) (hnd : hashes.Nodup) :
    ((∀ h ∈ hashes, (findImageByHash fs st h).isOk = true) →
      queryImageModel fs st hashes completion =
        .ok (hashes.filterMap (fun h => (findImageByHash fs st h).toOption))) ∧
    ((∃ h ∈ hashes, (findImageByHash fs st h).isOk = false) →
      ∃ e, queryImageModel fs st hashes completion = .error e) := by
  constructor
  · intro hok
    obtain ⟨m, hm, hl⟩ := joinLoop_ok (findImageByHash fs st) completion []
      (fun h hh => hok h (hperm.mem_iff.mp hh))
    unfold queryImageModel
    rw [hm]
    show Except.ok (collate hashes m) = _
    congr 1
    apply collate_eq_filterMap hashes m _ hnd
    · intro h hh
      rw [hl h, if_pos (hperm.mem_iff.mpr hh)]
    · intro h hh
      cases hf : findImageByHash fs st h
      · have := hok h hh
        rw [hf] at this
        simp [Except.isOk, Except.toBool] at this
      · simp [Except.toOption]
  · rintro ⟨h, hh, herr⟩
    obtain ⟨e, he⟩ := joinLoop_error (findImageByHash fs st) completion [] h
      (hperm.mem_iff.mpr hh) herr
    refine ⟨e, ?_⟩
    unfold queryImageModel
    rw [he]

/-- C6 counterexample: the catalog returns one fingerprint whose asset is
    absent from the store; its `find` reports absence (`StorageNotFound`),
    and `query_image` surfaces that error instead of dropping the
    fingerprint and returning the empty view list. -/
theorem queryImage_absence_counterexample :
    queryImageModel [] (CatalogState.mk [] [] [] [])
        [⟨[0, 0, 0, 0, 0, 0, 0, 0]⟩] [⟨[0, 0, 0, 0, 0, 0, 0, 0]⟩] =
      .error (.storageNotFound ⟨[0, 0, 0, 0, 0, 0, 0, 0]⟩) ∧
    queryImageModel [] (CatalogState.mk [] [] [] [])
        [⟨[0, 0, 0, 0, 0, 0, 0, 0]⟩] [⟨[0, 0, 0, 0, 0, 0, 0, 0]⟩] ≠
      .ok [] := by
  decide

/-- Witness for the amended C6 at a concrete store, catalog and query. -/
theorem queryImage_order_and_errors_witness :
    queryImageModel
        [⟨deriveDirChars ⟨[68, 165, 182, 249, 79, 79, 100, 69]⟩,
          (PixelHash.mk [68, 165, 182, 249, 79, 79, 100, 69]).toHexString,
          String.toList "png"⟩]
        (CatalogState.mk [(String.toList "44a5b6f94f4f6445", none)] [] [] [])
        [⟨[68, 165, 182, 249, 79, 79, 100, 69]⟩]
        [⟨[68, 165, 182, 249, 79, 79, 100, 69]⟩] =
      .ok ([(⟨[68, 165, 182, 249, 79, 79, 100, 69]⟩ : PixelHash)].filterMap
        (fun h => (findImageByHash
          [⟨deriveDirChars ⟨[68, 165, 182, 249, 79, 79, 100, 69]⟩,
            (PixelHash.mk [68, 165, 182, 249, 79, 79, 100, 69]).toHexString,
            String.toList "png"⟩]
          (CatalogState.mk [(String.toList "44a5b6f94f4f6445", none)] [] [] [])
          h).toOption)) :=
  (queryImage_order_and_errors _ _ _ _ (List.Perm.refl _) (by decide)).1
    (by decide)


/-! ### The query model and its SQL lowering
    (`src/query/image.rs`, `src/dialect.rs`, SQLite dialect) -/

/-- A parsed RFC 3339 timestamp (chrono `DateTime<Utc>`), kept as its parsed
    fields. chrono normalizes the offset into a UTC instant; that
    normalization is not modelled because no verified claim compares
    instants. -/
structure Rfc3339 where
  year : Nat
  month : Nat
  day : Nat
  hour : Nat
  minute : Nat
  second : Nat
  nanos : Nat
  offsetMinutes : Int
deriving DecidableEq, Repr

/-- `ImageQueryExpr` of `src/query/image.rs`. -/
inductive ImageQueryExpr where
  | Tag (name : Str)
  | And (lhs rhs : ImageQueryExpr)
  | Or (lhs rhs : ImageQueryExpr)
  | Not (expr : ImageQueryExpr)
  | DateUntil (dt : Rfc3339)
  | DateSince (dt : Rfc3339)
deriving DecidableEq, Repr

/-- `SqliteDialect::placeholder` (the compile-time `CurrentDialect`): always
    `?`. -/
def placeholder (_idx : Nat) : String := "?"

/-- `SqliteDialect::exists_tag_query`. -/
def existsTagQuery (_idx : Nat) : String :=
  "EXISTS (SELECT 1 FROM image_tags WHERE image_tags.image_hash = image_with_metadata.hash AND image_tags.tag_name = ?)"

/-- `exists_date_until_query` of the SQLite dialect. -/
def existsDateUntilQuery (idx : Nat) : String :=
  "EXISTS (SELECT 1 FROM image_metadatas WHERE image_metadatas.image_hash = images.hash AND created_at <= "
    ++ placeholder idx ++ ")"

/-- `exists_date_since_query` of the SQLite dialect. -/
def existsDateSinceQuery (idx : Nat) : String :=
  "EXISTS (SELECT 1 FROM image_metadatas WHERE image_metadatas.image_hash = images.hash AND created_at >= "
    ++ placeholder idx ++ ")"

/-- Two-digit zero-padded decimal. -/
def pad2 (n : Nat) : String :=
  if n < 10 then "0" ++ toString n else toString n

/-- `DateTime::to_rfc3339`, the textual form bound as a query parameter; its
    exact shape is irrelevant to every verified claim (parameters never
    enter the SQL text). -/
def rfc3339Render (d : Rfc3339) : String :=
  toString d.year ++ "-" ++ pad2 d.month ++ "-" ++ pad2 d.day ++ "T"
    ++ pad2 d.hour ++ ":" ++ pad2 d.minute ++ ":" ++ pad2 d.second
    ++ (if d.offsetMinutes = 0 then "+00:00"
        else (if d.offsetMinutes < 0 then "-" else "+")
          ++ pad2 (d.offsetMinutes.natAbs / 60) ++ ":"
          ++ pad2 (d.offsetMinutes.natAbs % 60))

/-- `ImageQueryExpr::build_sql`: produce the SQL fragment, appending this
    expression's parameters to the vector (the source threads `&mut params`;
    the model returns the grown vector). -/
def buildSql : ImageQueryExpr → List String → String × List String
  | .Tag t, ps =>
    let ps := ps ++ [String.mk t]
    (existsTagQuery ps.length, ps)
  | .And l r, ps =>
    let left := buildSql l ps
    let right := buildSql r left.2
    ("(" ++ left.1 ++ " AND " ++ right.1 ++ ")", right.2)
  | .Or l r, ps =>
    let left := buildSql l ps
    let right := buildSql r left.2
    ("(" ++ left.1 ++ " OR " ++ right.1 ++ ")", right.2)
  | .Not e, ps =>
    let inner := buildSql e ps
    ("NOT " ++ inner.1, inner.2)
  | .DateUntil d, ps =>
    let ps := ps ++ [rfc3339Render d]
    (existsDateUntilQuery ps.length, ps)
  | .DateSince d, ps =>
    let ps := ps ++ [rfc3339Render d]
    (existsDateSinceQuery ps.length, ps)

/-- `ImageQueryKind`. -/
inductive ImageQueryKind where
  | All
  | Where (expr : ImageQueryExpr)
deriving DecidableEq, Repr

/-- `ImageQueryKind::to_sql`: empty for `All`, a `WHERE` clause otherwise. -/
def ImageQueryKind.toSql : ImageQueryKind → String × List String
  | .All => ("", [])
  | .Where e =>
    let built := buildSql e []
    ("WHERE " ++ built.1, built.2)

/-- `OrderBy`. -/
inductive OrderBy where
  | CreatedAtAsc
  | CreatedAtDesc
  | FileSizeAsc
  | FileSizeDesc
  | Random
deriving DecidableEq, Repr

/-- `OrderBy::to_sql`. -/
def OrderBy.toSql : OrderBy → String
  | .CreatedAtAsc => " ORDER BY created_at ASC"
  | .CreatedAtDesc => " ORDER BY created_at DESC"
  | .FileSizeAsc => " ORDER BY file_size ASC"
  | .FileSizeDesc => " ORDER BY file_size DESC"
  | .Random => " ORDER BY RANDOM()"

/-- `ImageQuery`. -/
structure ImageQuery where
  expr : ImageQueryKind
  limit : Option Nat
  offset : Option Nat
  order : Option OrderBy
deriving DecidableEq, Repr

/-- `ImageQuery::all`. -/
def ImageQuery.all : ImageQuery :=
  ⟨.All, none, none, none⟩

/-- `ImageQuery::to_sql`: the filter clause, then the `ORDER BY` clause when
    an order is set, then parameterized `LIMIT`/`OFFSET` casts. -/
def ImageQuery.toSql (q : ImageQuery) : String × List String :=
  let built := q.expr.toSql
  let w := match q.order with
    | some o => built.1 ++ o.toSql
    | none => built.1
  let wl := match q.limit with
    | some l =>
      let ps := built.2 ++ [toString l]
      (w ++ " LIMIT CAST(" ++ placeholder ps.length ++ " AS INTEGER)", ps)
    | none => (w, built.2)
  match q.offset with
  | some o =>
    let ps := wl.2 ++ [toString o]
    (wl.1 ++ " OFFSET CAST(" ++ placeholder ps.length ++ " AS INTEGER)", ps)
  | none => wl

/-- `query_image_statement` of the SQLite dialect (also the trait default):
    the full statement the catalog executes. -/
def queryImageStatement (condition : String) : String :=
  "SELECT hash FROM image_with_metadata " ++ condition


/-! ### Default ordering of image queries (claim C8) -/

/-- No fragment emitted by `build_sql` contains the character `B` (in
    particular, none contains an `ORDER BY`); tag and date parameters go
    into the parameter vector, never into the SQL text. -/
theorem char_B_not_mem_buildSql (e : ImageQueryExpr) :
    ∀ ps, 'B' ∉ ((buildSql e ps).1).data := by
  induction e with
  | Tag t =>
    intro ps
    simp only [buildSql, existsTagQuery]
    decide
  | And l r ihl ihr =>
    intro ps hmem
    simp only [buildSql, String.data_append] at hmem
    rcases List.mem_append.mp hmem with h | h
    · rcases List.mem_append.mp h with h | h
      · rcases List.mem_append.mp h with h | h
        · rcases List.mem_append.mp h with h | h
          · exact absurd h (by decide)
          · exact ihl ps h
        · exact absurd h (by decide)
      · exact ihr _ h
    · exact absurd h (by decide)
  | Or l r ihl ihr =>
    intro ps hmem
    simp only [buildSql, String.data_append] at hmem
    rcases List.mem_append.mp hmem with h | h
    · rcases List.mem_append.mp h with h | h
      · rcases List.mem_append.mp h with h | h
        · rcases List.mem_append.mp h with h | h
          · exact absurd h (by decide)
          · exact ihl ps h
        · exact absurd h (by decide)
      · exact ihr _ h
    · exact absurd h (by decide)
  | Not e ih =>
    intro ps hmem
    simp only [buildSql, String.data_append] at hmem
    rcases List.mem_append.mp hmem with h | h
    · exact absurd h (by decide)
    · exact ih ps h
  | DateUntil d =>
    intro ps
    simp only [buildSql, existsDateUntilQuery, placeholder]
    decide
  | DateSince d =>
    intro ps
    simp only [buildSql, existsDateSinceQuery, placeholder]
    decide

/-- When the order field is unspecified, the lowered condition contains no
    `B`. -/
theorem char_B_not_mem_toSql (q : ImageQuery) (hq : q.order = none) :
    'B' ∉ ((ImageQuery.toSql q).1).data := by
  have hkind : 'B' ∉ ((ImageQueryKind.toSql q.expr).1).data := by
    cases hke : q.expr with
    | All => simp [ImageQueryKind.toSql]
    | Where e =>
      intro hmem
      simp only [ImageQueryKind.toSql, String.data_append] at hmem
      rcases List.mem_append.mp hmem with h | h
      · exact absurd h (by decide)
      · exact char_B_not_mem_buildSql e [] h
  unfold ImageQuery.toSql
  rw [hq]
  cases hlim : q.limit with
  | none =>
    cases hoff : q.offset with
    | none => exact hkind
    | some o =>
      intro hmem
      simp only [placeholder, String.data_append] at hmem
      rcases List.mem_append.mp hmem with h | h
      · rcases List.mem_append.mp h with h | h
        · rcases List.mem_append.mp h with h | h
          · exact hkind h
          · exact absurd h (by decide)
        · exact absurd h (by decide)
      · exact absurd h (by decide)
  | some l =>
    cases hoff : q.offset with
    | none =>
      intro hmem
      simp only [placeholder, String.data_append] at hmem
      rcases List.mem_append.mp hmem with h | h
      · rcases List.mem_append.mp h with h | h
        · rcases List.mem_append.mp h with h | h
          · exact hkind h
          · exact absurd h (by decide)
        · exact absurd h (by decide)
      · exact absurd h (by decide)
    | some o =>
      intro hmem
      simp only [placeholder, String.data_append] at hmem
      rcases List.mem_append.mp hmem with h | h
      · rcases List.mem_append.mp h with h | h
        · rcases List.mem_append.mp h with h | h
          · rcases List.mem_append.mp h with h | h
            · rcases List.mem_append.mp h with h | h
              · rcases List.mem_append.mp h with h | h
                · exact hkind h
                · exact absurd h (by decide)
              · exact absurd h (by decide)
            · exact absurd h (by decide)
          · exact absurd h (by decide)
        · exact absurd h (by decide)
      · exact absurd h (by decide)

/-- C8 counterexample: an `ImageQuery` whose order field is unspecified
    lowers, through `query_image_statement`, to SQL that does not order by
    `created_at` descending (it contains no `ORDER BY` at all). -/
theorem imageQuery_default_order_counterexample :
    ¬ (("ORDER BY created_at DESC").toList <:+:
        (queryImageStatement (ImageQuery.toSql ImageQuery.all).1).toList) := by
  decide

/-- C8 amended: when an `ImageQuery`'s order field is unspecified, the
    lowered SQL contains no `ORDER BY` clause at all — the `created_at`
    descending default is applied by the HTTP facade, which substitutes
    `Some(CreatedAtDesc)` into the query before lowering, not by the query
    model or the dialect. -/
theorem imageQuery_no_default_order (q : ImageQuery) (hq : q.order = none) :
    ¬ (("ORDER BY").toList <:+:
        (queryImageStatement (ImageQuery.toSql q).1).toList) := by
  intro hinf
  have hB : 'B' ∈ (queryImageStatement (ImageQuery.toSql q).1).toList :=
    hinf.subset (by decide)
  have hnot : 'B' ∉ (queryImageStatement (ImageQuery.toSql q).1).data := by
    unfold queryImageStatement
    intro hmem
    simp only [String.data_append] at hmem
    rcases List.mem_append.mp hmem with h | h
    · exact absurd h (by decide)
    · exact char_B_not_mem_toSql q hq h
  exact hnot hB

/-- Witness for the amended C8 at the all-images query. -/
theorem imageQuery_no_default_order_witness :
    ¬ (("ORDER BY").toList <:+:
        (queryImageStatement (ImageQuery.toSql ImageQuery.all).1).toList) :=
  imageQuery_no_default_order ImageQuery.all rfl


/-! ### The query-string parser (`src/parser.rs`) -/

/-- `ParseErrorKind`. The `InvalidDateFormat` variant is declared by the
    source but never constructed (see claim C7). -/
inductive ParseErrorKind where
  | UnexpectedToken
  | ExpectedTag
  | ExpectedDate
  | ExpectedExpr
  | InvalidDateFormat
deriving DecidableEq, Repr

/-- `ParseErrorDetail`: a kind plus the textual location (the unconsumed
    input at the failure point, per the `ParseError` impl). -/
structure ParseErrorDetail where
  kind : ParseErrorKind
  location : Str
deriving DecidableEq, Repr

/-- The outcome of running a nom parser: success with the remaining input
    and a value, a nom `Error` (this grammar produces no `Failure`), or a
    panic — the `.expect("Invalid date format")` in `date_expr` unwinds. -/
inductive PResult (α : Type) where
  | done (rest : Str) (val : α)
  | fail (e : ParseErrorDetail)
  | panicked
deriving DecidableEq, Repr

/-- The characters nom's `multispace0` consumes. -/
def isNomSpace (c : Char) : Bool :=
  c == ' ' || c == '\t' || c == '\r' || c == '\n'

/-- `multispace0`, which never fails. -/
def skipWs (s : Str) : Str :=
  s.dropWhile isNomSpace

/-- `ws(t(lit))` — `delimited(multispace0, tag(lit), multispace0)`. A `tag`
    mismatch raises `from_error_kind` at its input position, which the
    source's `ParseError` impl renders as `UnexpectedToken` there. -/
def wsTag (lit : Str) (s : Str) : PResult Unit :=
  let s1 := skipWs s
  if lit.isPrefixOf s1 then .done (skipWs (s1.drop lit.length)) ()
  else .fail ⟨.UnexpectedToken, s1⟩

/-- `ws(char(c))`. -/
def wsChar (c : Char) (s : Str) : PResult Unit :=
  let s1 := skipWs s
  match s1 with
  | c1 :: rest =>
    if c1 = c then .done (skipWs rest) () else .fail ⟨.UnexpectedToken, s1⟩
  | [] => .fail ⟨.UnexpectedToken, s1⟩

/-- `ws(take_while1(pred))`. -/
def wsTakeWhile1 (pred : Char → Bool) (s : Str) : PResult Str :=
  let s1 := skipWs s
  let tok := s1.takeWhile pred
  if tok.isEmpty then .fail ⟨.UnexpectedToken, s1⟩
  else .done (skipWs (s1.dropWhile pred)) tok

/-- Rust `char::is_alphanumeric` (the Unicode `Alphabetic` property or the
    `Nd`/`Nl`/`No` categories), modelled exactly for code points up to
    U+00FF — ASCII plus the Latin-1 Supplement, whose alphanumerics are the
    ASCII letters and digits, `ª µ º ² ³ ¹ ¼ ½ ¾`, and the letter ranges
    U+00C0–U+00D6, U+00D8–U+00F6, U+00F8–U+00FF. Code points above U+00FF
    are conservatively mapped to false; no input in this development uses
    them. -/
def rustIsAlphanumeric (c : Char) : Bool :=
  let n := c.toNat
  (48 ≤ n && n ≤ 57) || (65 ≤ n && n ≤ 90) || (97 ≤ n && n ≤ 122) ||
    n == 0xAA || n == 0xB5 || n == 0xBA || n == 0xB2 || n == 0xB3 ||
    n == 0xB9 || (0xBC ≤ n && n ≤ 0xBE) ||
    (0xC0 ≤ n && n ≤ 0xFF && n != 0xD7 && n != 0xF7)

/-- The tag rule's character class: `c.is_alphanumeric() || c == '_'`. -/
def isTagChar (c : Char) : Bool :=
  rustIsAlphanumeric c || c == '_'

/-- The date rule's character class (`AsChar::is_dec_digit` and the literal
    punctuation). -/
def isDatetimeChar (c : Char) : Bool :=
  c.isDigit || c == '-' || c == ':' || c == '.' || c == 'T' || c == 'Z'

/-- The `tag` rule, mapping the token to a `Tag` leaf. -/
def tagExpr (s : Str) : PResult ImageQueryExpr :=
  match wsTakeWhile1 isTagChar s with
  | .done rest tok => .done rest (.Tag tok)
  | .fail e => .fail e
  | .panicked => .panicked

/-- The numeric value of an ASCII digit. -/
def digitVal (c : Char) : Nat :=
  c.toNat - 48

/-- Exactly `n` decimal digits. -/
def readDigits (s : Str) (n : Nat) : Option (Nat × Str) :=
  let ds := s.take n
  if ds.length = n ∧ ds.all Char.isDigit then
    some (ds.foldl (fun a c => a * 10 + digitVal c) 0, s.drop n)
  else none

/-- One expected character. -/
def expectChar (c : Char) (s : Str) : Option Str :=
  match s with
  | c1 :: rest => if c1 = c then some rest else none
  | [] => none

/-- An optional fractional-seconds part: `.` then at least one digit,
    truncated/padded to nanoseconds. -/
def readFrac (s : Str) : Option (Nat × Str) :=
  match s with
  | '.' :: rest =>
    let ds := rest.takeWhile Char.isDigit
    if ds.isEmpty then none
    else
      some ((ds.take 9).foldl (fun a c => a * 10 + digitVal c) 0
          * 10 ^ (9 - (ds.take 9).length),
        rest.dropWhile Char.isDigit)
  | _ => some (0, s)

/-- The timezone offset: `Z` or `±HH:MM`. -/
def readOffset (s : Str) : Option (Int × Str) :=
  match s with
  | 'Z' :: rest => some (0, rest)
  | '+' :: rest => do
    let (hh, s) ← readDigits rest 2
    let s ← expectChar ':' s
    let (mm, s) ← readDigits s 2
    if hh ≤ 23 ∧ mm ≤ 59 then some ((hh * 60 + mm : Nat), s) else none
  | '-' :: rest => do
    let (hh, s) ← readDigits rest 2
    let s ← expectChar ':' s
    let (mm, s) ← readDigits s 2
    if hh ≤ 23 ∧ mm ≤ 59 then some (-((hh * 60 + mm : Nat) : Int), s)
    else none
  | _ => none

/-- Gregorian leap years. -/
def isLeapYear (y : Nat) : Bool :=
  (y % 4 == 0 && y % 100 != 0) || y % 400 == 0

/-- Days in a month. -/
def daysInMonth (y m : Nat) : Nat :=
  if m = 2 then (if isLeapYear y then 29 else 28)
  else if m = 4 ∨ m = 6 ∨ m = 9 ∨ m = 11 then 30
  else 31

/-- Models chrono `DateTime<Utc>::from_str` on the tokens the date rule can
    produce: a full RFC 3339 timestamp `YYYY-MM-DDTHH:MM:SS[.frac](Z|±HH:MM)`
    with calendar validation; a leap second `:60` is accepted as chrono
    does. chrono's further separator relaxations involve characters the
    rule's `take_while1` class excludes, so they cannot arise here. -/
def parseRfc3339 (s : Str) : Option Rfc3339 :=
  match readDigits s 4 with
  | none => none
  | some (y, s) =>
    match expectChar '-' s with
    | none => none
    | some s =>
      match readDigits s 2 with
      | none => none
      | some (mo, s) =>
        match expectChar '-' s with
        | none => none
        | some s =>
          match readDigits s 2 with
          | none => none
          | some (d, s) =>
            match expectChar 'T' s with
            | none => none
            | some s =>
              match readDigits s 2 with
              | none => none
              | some (h, s) =>
                match expectChar ':' s with
                | none => none
                | some s =>
                  match readDigits s 2 with
                  | none => none
                  | some (mi, s) =>
                    match expectChar ':' s with
                    | none => none
                    | some s =>
                      match readDigits s 2 with
                      | none => none
                      | some (sec, s) =>
                        match readFrac s with
                        | none => none
                        | some (ns, s) =>
                          match readOffset s with
                          | none => none
                          | some (off, s) =>
                            if s.isEmpty ∧ 1 ≤ mo ∧ mo ≤ 12 ∧ 1 ≤ d ∧
                                d ≤ daysInMonth y mo ∧ h ≤ 23 ∧ mi ≤ 59 ∧
                                sec ≤ 60 then
                              some ⟨y, mo, d, h, mi, sec, ns, off⟩
                            else none

/-- `ws(alt((t(">="), t("<="))))`: try `>=`, then `<=`; on both failing,
    the error of the last alternative. Returns whether `>=` matched. -/
def wsOp (s : Str) : PResult Bool :=
  let s1 := skipWs s
  if (String.toList ">=").isPrefixOf s1 then .done (skipWs (s1.drop 2)) true
  else if (String.toList "<=").isPrefixOf s1 then
    .done (skipWs (s1.drop 2)) false
  else .fail ⟨.UnexpectedToken, s1⟩

/-- The `date_expr` rule: `ws(t("date"))`, the comparison operator, then a
    `take_while1` over the datetime character class, whose token is fed to
    `DateTime::from_str(date_str).expect("Invalid date format")` — the
    `expect` PANICS when the token is not a valid timestamp. -/
def dateExpr (s : Str) : PResult ImageQueryExpr :=
  match wsTag (String.toList "date") s with
  | .fail e => .fail e
  | .panicked => .panicked
  | .done s1 _ =>
    match wsOp s1 with
    | .fail e => .fail e
    | .panicked => .panicked
    | .done s2 isGe =>
      match wsTakeWhile1 isDatetimeChar s2 with
      | .fail e => .fail e
      | .panicked => .panicked
      | .done s3 tok =>
        match parseRfc3339 tok with
        | some dt => .done s3 (if isGe then .DateSince dt else .DateUntil dt)
        | none => .panicked

mutual

/-- `or_expr`: an `and_expr` followed by the `many0` OR-loop, folded left.
    The fuel argument is a modelling artifact for termination: every
    recursive call decrements it, `parseQuery` supplies more than any input
    can consume, and exhaustion is mapped to a failure. -/
def orExpr : Nat → Str → PResult ImageQueryExpr
  | 0, s => .fail ⟨.UnexpectedToken, s⟩
  | fuel + 1, s =>
    match andExpr fuel s with
    | .done s1 init => orLoop fuel init s1
    | .fail e => .fail e
    | .panicked => .panicked

/-- The `many0(preceded(ws(t("OR")), and_expr))` loop: an inner failure
    stops the loop without consuming, and nom's stalled-iteration check
    turns a consumption-free success into an error. -/
def orLoop : Nat → ImageQueryExpr → Str → PResult ImageQueryExpr
  | 0, _, s => .fail ⟨.UnexpectedToken, s⟩
  | fuel + 1, acc, s =>
    match wsTag (String.toList "OR") s with
    | .fail _ => .done s acc
    | .panicked => .panicked
    | .done s1 _ =>
      match andExpr fuel s1 with
      | .fail _ => .done s acc
      | .panicked => .panicked
      | .done s2 e =>
        if s2.length = s.length then .fail ⟨.UnexpectedToken, s⟩
        else orLoop fuel (.Or acc e) s2

/-- `and_expr`, analogous to `or_expr`. -/
def andExpr : Nat → Str → PResult ImageQueryExpr
  | 0, s => .fail ⟨.UnexpectedToken, s⟩
  | fuel + 1, s =>
    match notExpr fuel s with
    | .done s1 init => andLoop fuel init s1
    | .fail e => .fail e
    | .panicked => .panicked

/-- The `many0(preceded(ws(t("AND")), not_expr))` loop. -/
def andLoop : Nat → ImageQueryExpr → Str → PResult ImageQueryExpr
  | 0, _, s => .fail ⟨.UnexpectedToken, s⟩
  | fuel + 1, acc, s =>
    match wsTag (String.toList "AND") s with
    | .fail _ => .done s acc
    | .panicked => .panicked
    | .done s1 _ =>
      match notExpr fuel s1 with
      | .fail _ => .done s acc
      | .panicked => .panicked
      | .done s2 e =>
        if s2.length = s.length then .fail ⟨.UnexpectedToken, s⟩
        else andLoop fuel (.And acc e) s2

/-- `not_expr`: `opt(preceded(ws(t("NOT")), primary))`; when the optional
    branch fails it consumes nothing, and the code falls through to
    `primary` on the original input. -/
def notExpr : Nat → Str → PResult ImageQueryExpr
  | 0, s => .fail ⟨.UnexpectedToken, s⟩
  | fuel + 1, s =>
    match wsTag (String.toList "NOT") s with
    | .fail _ => primary fuel s
    | .panicked => .panicked
    | .done s1 _ =>
      match primary fuel s1 with
      | .done s2 e => .done s2 (.Not e)
      | .fail _ => primary fuel s
      | .panicked => .panicked

/-- `primary`: `alt((date_expr, paren_expr, tag))`; `alt` reports the error
    of the last alternative. -/
def primary : Nat → Str → PResult ImageQueryExpr
  | 0, s => .fail ⟨.UnexpectedToken, s⟩
  | fuel + 1, s =>
    match dateExpr s with
    | .done s1 e => .done s1 e
    | .panicked => .panicked
    | .fail _ =>
      match parenExpr fuel s with
      | .done s1 e => .done s1 e
      | .panicked => .panicked
      | .fail _ => tagExpr s

/-- `paren_expr`: `delimited(ws(char('(')), query_expr, ws(char(')')))`,
    where `query_expr` is `or_expr`. -/
def parenExpr : Nat → Str → PResult ImageQueryExpr
  | 0, s => .fail ⟨.UnexpectedToken, s⟩
  | fuel + 1, s =>
    match wsChar '(' s with
    | .fail e => .fail e
    | .panicked => .panicked
    | .done s1 _ =>
      match orExpr fuel s1 with
      | .fail e => .fail e
      | .panicked => .panicked
      | .done s2 e =>
        match wsChar ')' s2 with
        | .fail e2 => .fail e2
        | .panicked => .panicked
        | .done s3 _ => .done s3 e

end

/-- The outcome of `parse_query`. -/
inductive ParseOutcome where
  | ok (e : ImageQueryExpr)
  | err (e : ParseErrorDetail)
  | panicked
deriving DecidableEq, Repr

/-- Rust `str::trim` whitespace (`char::is_whitespace`), restricted to the
    ASCII whitespace relevant here. -/
def isRustWhitespace (c : Char) : Bool :=
  c == ' ' || c == '\t' || c == '\n' || c == '\r' ||
    c == '\x0b' || c == '\x0c'

/-- `parse_query`: run `query_expr` and require the rest to trim to empty,
    else `UnexpectedToken` located at the untrimmed rest. The supplied fuel
    exceeds any reachable recursion depth (each parenthesis nesting level
    consumes at least one character), so fuel exhaustion is unreachable
    from here. -/
def parseQuery (s : Str) : ParseOutcome :=
  match orExpr (8 * (s.length + 1)) s with
  | .fail e => .err e
  | .panicked => .panicked
  | .done rest q =>
    if rest.all isRustWhitespace then .ok q
    else .err ⟨.UnexpectedToken, rest⟩


/-! ### The tag alphabet and malformed dates (claims C9 and C7) -/

/-- The spec's tag alphabet `[A-Za-z0-9_]`. -/
def isAsciiTagChar (c : Char) : Bool :=
  let n := c.toNat
  (65 ≤ n && n ≤ 90) || (97 ≤ n && n ≤ 122) || (48 ≤ n && n ≤ 57) || n == 95

/-- All `Tag` leaves of an expression draw their characters from the tag
    rule's character class (Unicode alphanumeric or underscore). -/
def exprTagsOk : ImageQueryExpr → Bool
  | .Tag t => t.all isTagChar
  | .And l r => exprTagsOk l && exprTagsOk r
  | .Or l r => exprTagsOk l && exprTagsOk r
  | .Not e => exprTagsOk e
  | .DateUntil _ => true
  | .DateSince _ => true

/-- A successful `take_while1` token satisfies its predicate throughout. -/
theorem wsTakeWhile1_all (pred : Char → Bool) (s rest tok : Str)
    (h : wsTakeWhile1 pred s = .done rest tok) : tok.all pred = true := by
  simp only [wsTakeWhile1] at h
  split at h
  · exact PResult.noConfusion h
  · injection h with h1 h2
    subst h2
    rw [List.all_eq_true]
    intro c hc
    exact List.mem_takeWhile_imp hc

/-- The tag rule emits only characters of its class. -/
theorem tagExpr_tagsOk (s rest : Str) (e : ImageQueryExpr)
    (h : tagExpr s = .done rest e) : exprTagsOk e = true := by
  unfold tagExpr at h
  cases hw : wsTakeWhile1 isTagChar s with
  | done r tok =>
    simp only [hw] at h
    injection h with h1 h2
    subst h2
    simpa [exprTagsOk] using wsTakeWhile1_all isTagChar s r tok hw
  | fail e1 => simp only [hw] at h; exact PResult.noConfusion h
  | panicked => simp only [hw] at h; exact PResult.noConfusion h

/-- The date rule emits no `Tag` leaves. -/
theorem dateExpr_tagsOk (s rest : Str) (e : ImageQueryExpr)
    (h : dateExpr s = .done rest e) : exprTagsOk e = true := by
  unfold dateExpr at h
  cases h1 : wsTag (String.toList "date") s with
  | fail e1 => simp only [h1] at h; exact PResult.noConfusion h
  | panicked => simp only [h1] at h; exact PResult.noConfusion h
  | done s1 u =>
    simp only [h1] at h
    cases h2 : wsOp s1 with
    | fail e1 => simp only [h2] at h; exact PResult.noConfusion h
    | panicked => simp only [h2] at h; exact PResult.noConfusion h
    | done s2 isGe =>
      simp only [h2] at h
      cases h3 : wsTakeWhile1 isDatetimeChar s2 with
      | fail e1 => simp only [h3] at h; exact PResult.noConfusion h
      | panicked => simp only [h3] at h; exact PResult.noConfusion h
      | done s3 tok =>
        simp only [h3] at h
        cases h4 : parseRfc3339 tok with
        | none => simp only [h4] at h; exact PResult.noConfusion h
        | some dt =>
          simp only [h4] at h
          injection h with h5 h6
          subst h6
          cases isGe <;> simp [exprTagsOk]

/-- Every parser production emits only `Tag` leaves drawn from the tag
    rule's character class: the joint invariant of all parser functions,
    by induction on fuel. -/
theorem parser_tagsOk (fuel : Nat) :
    (∀ s rest e, orExpr fuel s = .done rest e → exprTagsOk e = true) ∧
    (∀ acc s rest e, exprTagsOk acc = true →
      orLoop fuel acc s = .done rest e → exprTagsOk e = true) ∧
    (∀ s rest e, andExpr fuel s = .done rest e → exprTagsOk e = true) ∧
    (∀ acc s rest e, exprTagsOk acc = true →
      andLoop fuel acc s = .done rest e → exprTagsOk e = true) ∧
    (∀ s rest e, notExpr fuel s = .done rest e → exprTagsOk e = true) ∧
    (∀ s rest e, primary fuel s = .done rest e → exprTagsOk e = true) ∧
    (∀ s rest e, parenExpr fuel s = .done rest e → exprTagsOk e = true) := by
  induction fuel with
  | zero =>
    refine ⟨?_, ?_, ?_, ?_, ?_, ?_, ?_⟩
    · intro s rest e h
      simp only [orExpr] at h
      exact PResult.noConfusion h
    · intro acc s rest e _ h
      simp only [orLoop] at h
      exact PResult.noConfusion h
    · intro s rest e h
      simp only [andExpr] at h
      exact PResult.noConfusion h
    · intro acc s rest e _ h
      simp only [andLoop] at h
      exact PResult.noConfusion h
    · intro s rest e h
      simp only [notExpr] at h
      exact PResult.noConfusion h
    · intro s rest e h
      simp only [primary] at h
      exact PResult.noConfusion h
    · intro s rest e h
      simp only [parenExpr] at h
      exact PResult.noConfusion h
  | succ fuel ih =>
    obtain ⟨ihOr, ihOrL, ihAnd, ihAndL, ihNot, ihPrim, ihParen⟩ := ih
    refine ⟨?_, ?_, ?_, ?_, ?_, ?_, ?_⟩
    · intro s rest e h
      simp only [orExpr] at h
      cases ha : andExpr fuel s with
      | done s1 init =>
        simp only [ha] at h
        exact ihOrL init s1 rest e (ihAnd s s1 init ha) h
      | fail e1 => simp only [ha] at h; exact PResult.noConfusion h
      | panicked => simp only [ha] at h; exact PResult.noConfusion h
    · intro acc s rest e hacc h
      simp only [orLoop] at h
      cases ht : wsTag (String.toList "OR") s with
      | fail e1 =>
        simp only [ht] at h
        injection h with h1 h2
        subst h2
        exact hacc
      | panicked => simp only [ht] at h; exact PResult.noConfusion h
      | done s1 u =>
        simp only [ht] at h
        cases ha : andExpr fuel s1 with
        | fail e1 =>
          simp only [ha] at h
          injection h with h1 h2
          subst h2
          exact hacc
        | panicked => simp only [ha] at h; exact PResult.noConfusion h
        | done s2 e2 =>
          simp only [ha] at h
          by_cases hlen : s2.length = s.length
          · simp only [if_pos hlen] at h
            exact PResult.noConfusion h
          · simp only [if_neg hlen] at h
            refine ihOrL (.Or acc e2) s2 rest e ?_ h
            simp [exprTagsOk, hacc, ihAnd s1 s2 e2 ha]
    · intro s rest e h
      simp only [andExpr] at h
      cases ha : notExpr fuel s with
      | done s1 init =>
        simp only [ha] at h
        exact ihAndL init s1 rest e (ihNot s s1 init ha) h
      | fail e1 => simp only [ha] at h; exact PResult.noConfusion h
      | panicked => simp only [ha] at h; exact PResult.noConfusion h
    · intro acc s rest e hacc h
      simp only [andLoop] at h
      cases ht : wsTag (String.toList "AND") s with
      | fail e1 =>
        simp only [ht] at h
        injection h with h1 h2
        subst h2
        exact hacc
      | panicked => simp only [ht] at h; exact PResult.noConfusion h
      | done s1 u =>
        simp only [ht] at h
        cases ha : notExpr fuel s1 with
        | fail e1 =>
          simp only [ha] at h
          injection h with h1 h2
          subst h2
          exact hacc
        | panicked => simp only [ha] at h; exact PResult.noConfusion h
        | done s2 e2 =>
          simp only [ha] at h
          by_cases hlen : s2.length = s.length
          · simp only [if_pos hlen] at h
            exact PResult.noConfusion h
          · simp only [if_neg hlen] at h
            refine ihAndL (.And acc e2) s2 rest e ?_ h
            simp [exprTagsOk, hacc, ihNot s1 s2 e2 ha]
    · intro s rest e h
      simp only [notExpr] at h
      cases ht : wsTag (String.toList "NOT") s with
      | fail e1 =>
        simp only [ht] at h
        exact ihPrim s rest e h
      | panicked => simp only [ht] at h; exact PResult.noConfusion h
      | done s1 u =>
        simp only [ht] at h
        cases hp : primary fuel s1 with
        | done s2 e2 =>
          simp only [hp] at h
          injection h with h1 h2
          subst h2
          simp [exprTagsOk, ihPrim s1 s2 e2 hp]
        | fail e1 =>
          simp only [hp] at h
          exact ihPrim s rest e h
        | panicked => simp only [hp] at h; exact PResult.noConfusion h
    · intro s rest e h
      simp only [primary] at h
      cases hd : dateExpr s with
      | done s1 e1 =>
        simp only [hd] at h
        injection h with h1 h2
        subst h2
        exact dateExpr_tagsOk s s1 e1 hd
      | panicked => simp only [hd] at h; exact PResult.noConfusion h
      | fail e1 =>
        simp only [hd] at h
        cases hp : parenExpr fuel s with
        | done s1 e2 =>
          simp only [hp] at h
          injection h with h1 h2
          subst h2
          exact ihParen s s1 e2 hp
        | panicked => simp only [hp] at h; exact PResult.noConfusion h
        | fail e2 =>
          simp only [hp] at h
          exact tagExpr_tagsOk s rest e h
    · intro s rest e h
      simp only [parenExpr] at h
      cases hc : wsChar '(' s with
      | fail e1 => simp only [hc] at h; exact PResult.noConfusion h
      | panicked => simp only [hc] at h; exact PResult.noConfusion h
      | done s1 u =>
        simp only [hc] at h
        cases ho : orExpr fuel s1 with
        | fail e1 => simp only [ho] at h; exact PResult.noConfusion h
        | panicked => simp only [ho] at h; exact PResult.noConfusion h
        | done s2 e2 =>
          simp only [ho] at h
          cases hc2 : wsChar ')' s2 with
          | fail e1 => simp only [hc2] at h; exact PResult.noConfusion h
          | panicked => simp only [hc2] at h; exact PResult.noConfusion h
          | done s3 u2 =>
            simp only [hc2] at h
            injection h with h1 h2
            subst h2
            exact ihOr s1 s2 e2 ho

/-- C9 counterexample: the parser accepts `é` (U+00E9) as a tag — a
    character outside the alphabet `[A-Za-z0-9_]` — because the tag rule
    uses the Unicode `char::is_alphanumeric`, not the spec's ASCII class. -/
theorem parser_tag_alphabet_counterexample :
    parseQuery [Char.ofNat 0xE9] = .ok (.Tag [Char.ofNat 0xE9]) ∧
      isAsciiTagChar (Char.ofNat 0xE9) = false := by
  decide

/-- C9 amended: every tag token accepted by `parse_query` consists of
    characters satisfying Rust's Unicode `char::is_alphanumeric` or `_` —
    a proper superset of `[A-Za-z0-9_]` that also admits non-ASCII
    alphanumeric characters. -/
theorem parser_tag_alphabet (s : Str) (e : ImageQueryExpr)
    (h : parseQuery s = .ok e) : exprTagsOk e = true := by
  unfold parseQuery at h
  cases ho : orExpr (8 * (s.length + 1)) s with
  | done rest q =>
    simp only [ho] at h
    by_cases hws : rest.all isRustWhitespace = true
    · rw [if_pos hws] at h
      injection h with h1
      subst h1
      exact (parser_tagsOk _).1 s rest _ ho
    · rw [if_neg hws] at h
      exact ParseOutcome.noConfusion h
  | fail e1 =>
    simp only [ho] at h
    exact ParseOutcome.noConfusion h
  | panicked =>
    simp only [ho] at h
    exact ParseOutcome.noConfusion h

/-- Witness for the amended C9 at a concrete accepted input. -/
theorem parser_tag_alphabet_witness :
    parseQuery (String.toList "cat") = .ok (.Tag (String.toList "cat")) ∧
      exprTagsOk (.Tag (String.toList "cat")) = true :=
  ⟨by decide, parser_tag_alphabet (String.toList "cat") _ (by decide)⟩

/-- C7: on the malformed date literal in `date >= 1`, `parse_query` PANICS
    (the `.expect("Invalid date format")` in `date_expr`) instead of
    returning the `InvalidDateFormat` error the spec requires; the
    `ParseErrorKind::InvalidDateFormat` variant exists in the source but is
    never constructed. -/
theorem parser_malformed_date_panics :
    parseQuery (String.toList "date >= 1") = .panicked := by
  decide

end Buru
